import Mathlib

/-!
# The scheduler loop of the Mozart 2 virtual machine

A shallow embedding of `VirtualMachine::run()` (`src/vm/main/vm.cc`).

The loop only talks to its collaborators (thread pool, threads, spaces,
garbage collector, environment, wakeables) through method calls whose bodies
are not part of `vm.cc`.  Those calls are the fields of `Env`: each one is an
arbitrary transformer of the whole machine state, so nothing is assumed about
them unless a theorem says so.  Every call the loop makes is recorded, in
program order, in a list of `Event`s.
-/

namespace Mozart

/-- A `Runnable*`: threads are known to the scheduler by identity only. -/
abbrev Thread := Nat

/-- A `Space*`. -/
abbrev Space := Nat

/-- A `StableNode*` held by an alarm record. -/
abbrev Node := Nat

/-- One record of `_alarms`: `expiration` is a `std::int64_t`. -/
structure Alarm where
  expiration : Int
  wakeable : Node
  deriving DecidableEq, Repr

/-- The fields of `VirtualMachine` that `run()` reads or writes itself, plus
`ext`, the state of everything the loop reaches only through calls (thread
pool, threads, spaces, collector, environment). `alarms` is `_alarms` with
`front()` the head of the list. -/
structure VM (X : Type) where
  exitRunRequested : Bool
  envUseDynamicPreemption : Bool
  referenceTime : Int
  alarms : List Alarm
  currentThread : Option Thread
  preemptRequested : Bool
  ext : X

/-- The calls `run()` makes into code outside `vm.cc`. `assertsEnabled` tells
whether `assert` is compiled in. -/
structure Env (X : Type) where
  assertsEnabled : Bool
  topLevelSpace : Space
  testDynamicExitRun : VM X → Bool × VM X
  isGCRequired : VM X → Bool × VM X
  doGC : VM X → VM X
  install : Space → VM X → Bool × VM X
  wakeUp : Node → VM X → VM X
  popNext : VM X → Option Thread × VM X
  isTerminated : Thread → VM X → Bool × VM X
  getSpace : Thread → VM X → Space
  kill : Thread → VM X → VM X
  run : Thread → VM X → VM X
  isRunnable : Thread → VM X → Bool × VM X
  schedule : Thread → VM X → VM X

/-- What the loop does, one entry per call or field write, in program order.
`doGC` carries the value of `_currentThread` at the moment of the call. -/
inductive Event where
  | testDynamicExitRun (result : Bool)
  | isGCRequired (result : Bool)
  | install (space : Space) (result : Bool)
  | doGC (current : Option Thread)
  | wakeUp (alarm : Alarm)
  | removeFront (alarm : Alarm)
  | popNext (result : Option Thread)
  | isTerminated (thread : Thread) (result : Bool)
  | kill (thread : Thread)
  | assertRunnable (thread : Thread) (result : Bool)
  | setCurrentThread (value : Option Thread)
  | clearPreemptRequested
  | run (thread : Thread)
  | isRunnable (thread : Thread) (result : Bool)
  | schedule (thread : Thread)
  deriving DecidableEq, Repr

/-- Why an evaluation of the model gives no result: the fuel bounding the
loops ran out, `front()` or `remove_front()` was reached on an empty list
(undefined in the source), or the `assert` of line 78 failed. -/
inductive Fault where
  | outOfFuel
  | emptyFront
  | assertFailed
  deriving DecidableEq, Repr

/-- How the body of the outer `while` ends: fall through or `continue`
(`next`), or `break` (`leave`). -/
inductive Control where
  | next
  | leave
  deriving DecidableEq, Repr

/-- Two's-complement reduction of an integer to `std::int64_t`. -/
def wrapInt64 (x : Int) : Int :=
  (x + 9223372036854775808) % 18446744073709551616 - 9223372036854775808

/-- The loop test of line 34-35, with the short-circuit evaluation of `||`
and `&&`: the first component tells whether the body is entered. -/
def loopCondition {X : Type} (E : Env X) (s : VM X) : Bool × VM X × List Event :=
  if s.exitRunRequested then
    (false, s, [])
  else if s.envUseDynamicPreemption then
    ((!(E.testDynamicExitRun s).1), (E.testDynamicExitRun s).2,
      [Event.testDynamicExitRun (E.testDynamicExitRun s).1])
  else
    (true, s, [])

/-- Lines 37-40: the collection phase. -/
def gcPhase {X : Type} (E : Env X) (s : VM X) : VM X × List Event :=
  let s1 := (E.isGCRequired s).2
  if (E.isGCRequired s).1 then
    let r := E.install E.topLevelSpace s1
    (E.doGC r.2,
      [Event.isGCRequired true, Event.install E.topLevelSpace r.1, Event.doGC r.2.currentThread])
  else
    (s1, [Event.isGCRequired false])

/-- Lines 44-51: the inner `while` that triggers alarms, `now` being the
value read at line 43. -/
def drainAlarms {X : Type} (E : Env X) (now : Int) :
    Nat → VM X → Except Fault (VM X × List Event)
  | 0, _ => Except.error Fault.outOfFuel
  | fuel + 1, s =>
    match s.alarms with
    | [] => Except.ok (s, [])
    | a :: _ =>
      if a.expiration ≤ now then
        let r := E.install E.topLevelSpace s
        match r.2.alarms with
        | [] => Except.error Fault.emptyFront
        | a1 :: _ =>
          let s2 := E.wakeUp a1.wakeable r.2
          match s2.alarms with
          | [] => Except.error Fault.emptyFront
          | a2 :: rest =>
            match drainAlarms E now fuel { s2 with alarms := rest } with
            | Except.error e => Except.error e
            | Except.ok (s3, tr) =>
              Except.ok (s3,
                Event.install E.topLevelSpace r.1 :: Event.wakeUp a1 ::
                  Event.removeFront a2 :: tr)
      else Except.ok (s, [])

/-- Lines 42-51: read the reference time, then drain. -/
def alarmPhase {X : Type} (E : Env X) (fuel : Nat) (s : VM X) :
    Except Fault (VM X × List Event) :=
  drainAlarms E s.referenceTime fuel s

/-- Lines 56-64: the `do ... while` that selects a thread. -/
def selectThread {X : Type} (E : Env X) :
    Nat → VM X → Except Fault (Option Thread × VM X × List Event)
  | 0, _ => Except.error Fault.outOfFuel
  | fuel + 1, s =>
    match (E.popNext s).1 with
    | none => Except.ok (none, (E.popNext s).2, [Event.popNext none])
    | some t =>
      let r := E.isTerminated t (E.popNext s).2
      if r.1 then
        match selectThread E fuel r.2 with
        | Except.error e => Except.error e
        | Except.ok (c, s2, tr) =>
          Except.ok (c, s2, Event.popNext (some t) :: Event.isTerminated t true :: tr)
      else
        Except.ok (some t, r.2, [Event.popNext (some t), Event.isTerminated t false])

/-- The write `_currentThread = c`. -/
def VM.setCurrentThread {X : Type} (s : VM X) (c : Option Thread) : VM X :=
  { s with currentThread := c }

/-- The write `_preemptRequested = false`. -/
def VM.clearPreemptRequested {X : Type} (s : VM X) : VM X :=
  { s with preemptRequested := false }

/-- Line 78: `assert(currentThread->isRunnable())`, which calls `isRunnable()`
only when assertions are compiled in. The first component tells whether
execution goes on. -/
def assertRunnable {X : Type} (E : Env X) (t : Thread) (s : VM X) :
    Bool × VM X × List Event :=
  if E.assertsEnabled then
    ((E.isRunnable t s).1, (E.isRunnable t s).2, [Event.assertRunnable t (E.isRunnable t s).1])
  else (true, s, [])

/-- The machine when `run()` of thread `t` has returned and `_currentThread`
has been reset (lines 79-82), `s` being the machine before line 79. -/
def afterQuantum {X : Type} (E : Env X) (t : Thread) (s : VM X) : VM X :=
  (E.run t (s.setCurrentThread (some t)).clearPreemptRequested).setCurrentThread none

/-- Lines 79-86: run the thread for a quantum, then schedule it anew if it is
still runnable. -/
def runQuantum {X : Type} (E : Env X) (t : Thread) (s : VM X) : VM X × List Event :=
  let q := E.isRunnable t (afterQuantum E t s)
  if q.1 then
    (E.schedule t q.2,
      [Event.setCurrentThread (some t), Event.clearPreemptRequested, Event.run t,
        Event.setCurrentThread none, Event.isRunnable t true, Event.schedule t])
  else
    (q.2,
      [Event.setCurrentThread (some t), Event.clearPreemptRequested, Event.run t,
        Event.setCurrentThread none, Event.isRunnable t false])

/-- Lines 70-86: what happens to the selected thread. -/
def runThread {X : Type} (E : Env X) (t : Thread) (s : VM X) :
    Except Fault (Control × VM X × List Event) :=
  let sp := E.getSpace t s
  let r := E.install sp s
  if r.1 then
    let chk := assertRunnable E t r.2
    if chk.1 then
      Except.ok (Control.next, (runQuantum E t chk.2.1).1,
        Event.install sp true :: (chk.2.2 ++ (runQuantum E t chk.2.1).2))
    else
      Except.error Fault.assertFailed
  else
    Except.ok (Control.next, E.kill t r.2, [Event.install sp false, Event.kill t])

/-- Lines 37-86: the body of the outer `while`. -/
def loopBody {X : Type} (E : Env X) (fuel : Nat) (s : VM X) :
    Except Fault (Control × VM X × List Event) :=
  let g := gcPhase E s
  match alarmPhase E fuel g.1 with
  | Except.error e => Except.error e
  | Except.ok (s2, tr2) =>
    match selectThread E fuel s2 with
    | Except.error e => Except.error e
    | Except.ok (none, s3, tr3) => Except.ok (Control.leave, s3, g.2 ++ tr2 ++ tr3)
    | Except.ok (some t, s3, tr3) =>
      match runThread E t s3 with
      | Except.error e => Except.error e
      | Except.ok (c, s4, tr4) => Except.ok (c, s4, g.2 ++ tr2 ++ tr3 ++ tr4)

/-- One pass of the outer `while`: the test, then the body when it is
entered. The first component tells whether the loop goes on. -/
def loopPass {X : Type} (E : Env X) (fuel : Nat) (s : VM X) :
    Except Fault (Bool × VM X × List Event) :=
  let c := loopCondition E s
  if c.1 then
    match loopBody E fuel c.2.1 with
    | Except.error e => Except.error e
    | Except.ok (Control.next, s2, tr) => Except.ok (true, s2, c.2.2 ++ tr)
    | Except.ok (Control.leave, s2, tr) => Except.ok (false, s2, c.2.2 ++ tr)
  else
    Except.ok (false, c.2.1, c.2.2)

/-- Lines 34-87: the outer `while`, up to its exit. -/
def runLoop {X : Type} (E : Env X) : Nat → VM X → Except Fault (VM X × List Event)
  | 0, _ => Except.error Fault.outOfFuel
  | fuel + 1, s =>
    match loopPass E fuel s with
    | Except.error e => Except.error e
    | Except.ok (false, s1, tr) => Except.ok (s1, tr)
    | Except.ok (true, s1, tr) =>
      match runLoop E fuel s1 with
      | Except.error e => Except.error e
      | Except.ok (s2, tr2) => Except.ok (s2, tr ++ tr2)

/-- Lines 93-97: the value handed to the caller. -/
def nextWake {X : Type} (s : VM X) : Int :=
  match s.alarms with
  | [] => -1
  | a :: _ => max (wrapInt64 (a.expiration - s.referenceTime)) 0

/-- `VirtualMachine::run()`: the loop, the closing install of the top-level
space (line 90) and the returned value. -/
def run {X : Type} (E : Env X) (fuel : Nat) (s : VM X) :
    Except Fault (Int × VM X × List Event) :=
  match runLoop E fuel s with
  | Except.error e => Except.error e
  | Except.ok (s1, tr) =>
    let r := E.install E.topLevelSpace s1
    Except.ok (nextWake r.2, r.2, tr ++ [Event.install E.topLevelSpace r.1])

/-- The first `n` passes of the outer `while`, with the trace of each pass.
The first component tells whether the loop is still going on after them; the
passes stop at the first one that leaves the loop. -/
def passes {X : Type} (E : Env X) (fuel : Nat) :
    Nat → VM X → Except Fault (Bool × VM X × List (List Event))
  | 0, s => Except.ok (true, s, [])
  | n + 1, s =>
    match loopPass E fuel s with
    | Except.error e => Except.error e
    | Except.ok (false, s1, tr) => Except.ok (false, s1, [tr])
    | Except.ok (true, s1, tr) =>
      match passes E fuel n s1 with
      | Except.error e => Except.error e
      | Except.ok (b, s2, trs) => Except.ok (b, s2, tr :: trs)

/-- The thread a `run()` event is about. -/
def Event.ran : Event → Option Thread
  | Event.run t => some t
  | _ => none

/-- The threads run in a trace, in order. -/
def threadsRun (tr : List Event) : List Thread :=
  tr.filterMap Event.ran

/-! ## A concrete world

The collaborators of the loop, as the specification describes them, for
evaluating the loop on concrete machines. -/

/-- What a thread does with one scheduling quantum. -/
inductive Quantum where
  | stay
  | suspend
  | terminate
  deriving DecidableEq, Repr

/-- Modelled from the spec: the state of the collaborators that `vm.cc` only
declares (thread pool, threads, spaces, collector). The pool is a queue with
its front at the head; a thread is terminated, suspended or ready; a space is
failed or not; `ambient` is the space made ambient by the last successful
`install()`; `collections` counts the collection passes; `dynamicExit` is the
answer of the environment to `testDynamicExitRun()`. -/
structure World where
  pool : List Thread
  terminated : List Thread
  suspended : List Thread
  failedSpaces : List Space
  gcRequired : Bool
  collections : Nat
  ambient : Option Space
  dynamicExit : Bool
  deriving DecidableEq, Repr

/-- The collaborators at rest: the given pool, every thread ready, no failed
space, no collection required, no exit asked by the environment. -/
def World.idle (pool : List Thread) : World where
  pool := pool
  terminated := []
  suspended := []
  failedSpaces := []
  gcRequired := false
  collections := 0
  ambient := none
  dynamicExit := false

/-- Modelled from the spec: the collaborators of the loop, which `vm.cc` calls
but does not define. The pool pops at the front and re-queues at the back;
`install()` fails exactly on a failed space; `kill()` terminates; a fired
alarm moves the thread named by its wakeable to the ready pool; a thread is
runnable when it is neither terminated nor suspended; `prog` says what each
thread does when run and `spaceOf` which space it belongs to. The top-level
space is space `0`. -/
def World.env (prog : Thread → Quantum) (spaceOf : Thread → Space) : Env World where
  assertsEnabled := true
  topLevelSpace := 0
  testDynamicExitRun := fun s => (s.ext.dynamicExit, s)
  isGCRequired := fun s => (s.ext.gcRequired, s)
  doGC := fun s =>
    { s with ext := { s.ext with gcRequired := false, collections := s.ext.collections + 1 } }
  install := fun sp s =>
    if sp ∈ s.ext.failedSpaces then (false, s)
    else (true, { s with ext := { s.ext with ambient := some sp } })
  wakeUp := fun n s =>
    { s with ext := { s.ext with pool := s.ext.pool ++ [n],
                                 suspended := s.ext.suspended.filter (fun t => t != n) } }
  popNext := fun s =>
    match s.ext.pool with
    | [] => (none, s)
    | t :: rest => (some t, { s with ext := { s.ext with pool := rest } })
  isTerminated := fun t s => (decide (t ∈ s.ext.terminated), s)
  getSpace := fun t _ => spaceOf t
  kill := fun t s => { s with ext := { s.ext with terminated := t :: s.ext.terminated } }
  run := fun t s =>
    match prog t with
    | Quantum.stay => s
    | Quantum.suspend => { s with ext := { s.ext with suspended := t :: s.ext.suspended } }
    | Quantum.terminate => { s with ext := { s.ext with terminated := t :: s.ext.terminated } }
  isRunnable := fun t s =>
    (decide (t ∉ s.ext.terminated) && decide (t ∉ s.ext.suspended), s)
  schedule := fun t s => { s with ext := { s.ext with pool := s.ext.pool ++ [t] } }

/-- A machine at rest: nothing requested, clock at `now`, the given alarms and
pool, every thread ready, no failed space. -/
def World.machine (now : Int) (alarms : List Alarm) (pool : List Thread) : VM World where
  exitRunRequested := false
  envUseDynamicPreemption := false
  referenceTime := now
  alarms := alarms
  currentThread := none
  preemptRequested := false
  ext := World.idle pool

/-- A world in which every thread stays ready when run and lives in space 1. -/
def plainEnv : Env World :=
  World.env (fun _ => Quantum.stay) (fun _ => 1)

/-- A machine with exit requested, the clock at 3, one alarm expiring at 5 and
thread 4 in the pool. -/
def exitRequestedMachine : VM World :=
  { World.machine 3 [⟨5, 7⟩] [4] with exitRunRequested := true }

/-! ## Vocabulary of the statements -/

/-- The events that only the treatment of a selected thread (lines 70-86)
produces, apart from the install of its space. -/
def Event.isThreadEvent : Event → Bool
  | Event.kill _ => true
  | Event.assertRunnable _ _ => true
  | Event.setCurrentThread _ => true
  | Event.clearPreemptRequested => true
  | Event.run _ => true
  | Event.isRunnable _ _ => true
  | Event.schedule _ => true
  | _ => false

/-- The events of the selection loop (lines 56-64). -/
def Event.isSelectEvent : Event → Bool
  | Event.popNext _ => true
  | Event.isTerminated _ _ => true
  | _ => false

/-- The events of the alarm loop (lines 44-51). -/
def Event.isAlarmEvent : Event → Bool
  | Event.install _ _ => true
  | Event.wakeUp _ => true
  | Event.removeFront _ => true
  | _ => false

/-- The trace of popping and discarding the given threads, in order. -/
def discardTrace : List Thread → List Event
  | [] => []
  | t :: ts => Event.popNext (some t) :: Event.isTerminated t true :: discardTrace ts

/-- The trace of the last round of the selection loop. -/
def selectTail : Option Thread → List Event
  | none => [Event.popNext none]
  | some t => [Event.popNext (some t), Event.isTerminated t false]

/-- The thread pool seen as a queue: `pool` reads the queued threads off a
machine state, front first, and `term` the threads that are terminated.
`popNext()` takes the front of the queue, or returns null on an empty queue,
and `isTerminated()` reports `term`; neither changes anything else of the
two views. -/
structure PoolView {X : Type} (E : Env X) (pool : VM X → List Thread)
    (term : VM X → Thread → Bool) : Prop where
  popNext_nil : ∀ s, pool s = [] → (E.popNext s).1 = none ∧ pool (E.popNext s).2 = []
  popNext_cons : ∀ s t rest, pool s = t :: rest →
    (E.popNext s).1 = some t ∧ pool (E.popNext s).2 = rest
  popNext_term : ∀ s, term (E.popNext s).2 = term s
  isTerminated_result : ∀ t s, (E.isTerminated t s).1 = term s t
  isTerminated_pool : ∀ t s, pool (E.isTerminated t s).2 = pool s
  isTerminated_term : ∀ t s, term (E.isTerminated t s).2 = term s

/-- A machine whose pool holds thread 4 alone, with the space of every thread
(space 1) failed. -/
def failedSpaceMachine : VM World :=
  { World.machine 0 [] [4] with
    ext := { World.idle [4] with failedSpaces := [1] } }

/-- The machine once the front of its pool has been popped. -/
def VM.popped (s : VM World) : VM World :=
  { s with ext := { s.ext with pool := s.ext.pool.tail } }

/-- A machine whose pool is `[1, 2, 3, 4]`, threads 1 and 2 being terminated. -/
def staleMachine : VM World :=
  { World.machine 0 [] [1, 2, 3, 4] with
    ext := { World.idle [1, 2, 3, 4] with terminated := [2, 1] } }

/-- The trace of firing the given alarms in order, each with the result of the
install of the top-level space `top` that precedes its wake-up. -/
def fireTrace (top : Space) : List (Alarm × Bool) → List Event
  | [] => []
  | (a, ok) :: rest =>
    Event.install top ok :: Event.wakeUp a :: Event.removeFront a :: fireTrace top rest

/-- The alarm a wake-up event is about. -/
def Event.woken : Event → Option Alarm
  | Event.wakeUp a => some a
  | _ => none

/-- The alarm a removal event is about. -/
def Event.removed : Event → Option Alarm
  | Event.removeFront a => some a
  | _ => none

/-- The alarm queue belongs to the loop while it drains it: neither the
install of the top-level space nor a wake-up adds or removes an alarm. -/
structure AlarmFrame {X : Type} (E : Env X) : Prop where
  install_alarms : ∀ s, (E.install E.topLevelSpace s).2.alarms = s.alarms
  wakeUp_alarms : ∀ n s, (E.wakeUp n s).alarms = s.alarms

/-- A machine with the clock at 9 and alarms expiring at 2, 2, 5 and 9. -/
def alarmMachine : VM World :=
  World.machine 9 [⟨2, 10⟩, ⟨2, 11⟩, ⟨5, 12⟩, ⟨9, 13⟩] []

/-- The threads of the end-to-end scenario: when run, `T1` (thread 1)
terminates and any other thread, `T2` (thread 2) among them, stays ready; all
belong to space `S1` (space 1), which never fails. -/
def scenarioEnv : Env World :=
  World.env (fun t => if t = 1 then Quantum.terminate else Quantum.stay) (fun _ => 1)

/-- The machine of the end-to-end scenario: pool `[T1, T2]`, no alarm, no
collection required. -/
def scenarioMachine : VM World :=
  World.machine 0 [] [1, 2]

/-- The collection passes among the events. -/
def Event.isCollection : Event → Bool
  | Event.doGC _ => true
  | _ => false

/-- A world in which every thread terminates when run. -/
def wakeEnv : Env World :=
  World.env (fun _ => Quantum.terminate) (fun _ => 1)

/-- A machine with an empty pool, the clock at 5, and thread 7 suspended on an
alarm that expires at 5. -/
def sleeperMachine : VM World :=
  { World.machine 5 [⟨5, 7⟩] [] with
    ext := { World.idle [] with suspended := [7] } }

/-- A machine with no alarm whose pool holds the terminated threads 1 and 2,
a collection being required. -/
def idleMachine : VM World :=
  { World.machine 0 [] [1, 2] with
    ext := { World.idle [1, 2] with terminated := [2, 1], gcRequired := true } }

/-- The installs of a space among the events. -/
def Event.isInstall : Event → Bool
  | Event.install _ _ => true
  | _ => false

/-- A machine, last left with space 1 ambient, whose environment asks to leave
through the dynamic preemption test; thread 4 is in the pool. -/
def preemptedMachine : VM World :=
  { World.machine 0 [] [4] with
    envUseDynamicPreemption := true
    ext := { World.idle [4] with ambient := some 1, dynamicExit := true } }

/-- The trace of a pass of the scenario that runs thread `t` of space 1, `b`
telling whether the thread is still runnable afterwards. -/
def quantumTrace (t : Thread) (b : Bool) : List Event :=
  [Event.isGCRequired false, Event.popNext (some t), Event.isTerminated t false,
    Event.install 1 true, Event.assertRunnable t true,
    Event.setCurrentThread (some t), Event.clearPreemptRequested, Event.run t,
    Event.setCurrentThread none, Event.isRunnable t b] ++
  (if b then [Event.schedule t] else [])

/-- The machine of the end-to-end scenario from its second pass on: the pool
is `[T2]`, `T1` is terminated and space `S1` is ambient. -/
def scenarioSteady : VM World :=
  { World.machine 0 [] [2] with
    ext := { World.idle [2] with terminated := [1], ambient := some 1 } }

/-- The field `_currentThread` belongs to the loop: no call made by the loop,
other than the `run()` of a thread, changes it. -/
structure CurrentThreadFrame {X : Type} (E : Env X) : Prop where
  testDynamicExitRun : ∀ s, (E.testDynamicExitRun s).2.currentThread = s.currentThread
  isGCRequired : ∀ s, (E.isGCRequired s).2.currentThread = s.currentThread
  doGC : ∀ s, (E.doGC s).currentThread = s.currentThread
  install : ∀ sp s, (E.install sp s).2.currentThread = s.currentThread
  wakeUp : ∀ n s, (E.wakeUp n s).currentThread = s.currentThread
  popNext : ∀ s, (E.popNext s).2.currentThread = s.currentThread
  isTerminated : ∀ t s, (E.isTerminated t s).2.currentThread = s.currentThread
  kill : ∀ t s, (E.kill t s).currentThread = s.currentThread
  isRunnable : ∀ t s, (E.isRunnable t s).2.currentThread = s.currentThread
  schedule : ∀ t s, (E.schedule t s).currentThread = s.currentThread

/-- A machine with a collection required, an alarm due, and threads 1
(terminated) and 2 in the pool. -/
def busyMachine : VM World :=
  { World.machine 5 [⟨5, 7⟩] [1, 2] with
    ext := { World.idle [1, 2] with terminated := [1], suspended := [7], gcRequired := true } }

/-- A world of threads that are always runnable, with a first-in first-out
pool and nothing else to do: on every machine satisfying `Inv`, exit is not
requested and the environment does not ask for it, no collection is required,
there is no alarm, `popNext()` takes the front of the queue `pool`,
`schedule()` appends to its back, no thread is terminated, every space
installs, and a thread is runnable before and after it is run; every call
leads to a machine satisfying `Inv` again and, these two apart, leaves the
queue as it is. -/
structure RoundRobin {X : Type} (E : Env X) (pool : VM X → List Thread)
    (Inv : VM X → Prop) : Prop where
  exitRunRequested : ∀ s, Inv s → s.exitRunRequested = false
  testDynamicExitRun : ∀ s, Inv s → (E.testDynamicExitRun s).1 = false ∧
    Inv (E.testDynamicExitRun s).2 ∧ pool (E.testDynamicExitRun s).2 = pool s
  isGCRequired : ∀ s, Inv s → (E.isGCRequired s).1 = false ∧
    Inv (E.isGCRequired s).2 ∧ pool (E.isGCRequired s).2 = pool s
  alarms : ∀ s, Inv s → s.alarms = []
  popNext : ∀ s t rest, Inv s → pool s = t :: rest →
    (E.popNext s).1 = some t ∧ Inv (E.popNext s).2 ∧ pool (E.popNext s).2 = rest
  isTerminated : ∀ s t, Inv s → (E.isTerminated t s).1 = false ∧
    Inv (E.isTerminated t s).2 ∧ pool (E.isTerminated t s).2 = pool s
  install : ∀ s t, Inv s → (E.install (E.getSpace t s) s).1 = true ∧
    Inv (E.install (E.getSpace t s) s).2 ∧ pool (E.install (E.getSpace t s) s).2 = pool s
  isRunnable : ∀ s t, Inv s → (E.isRunnable t s).1 = true ∧
    Inv (E.isRunnable t s).2 ∧ pool (E.isRunnable t s).2 = pool s
  run : ∀ s t, Inv s → Inv (afterQuantum E t s) ∧ pool (afterQuantum E t s) = pool s
  schedule : ∀ s t, Inv s → Inv (E.schedule t s) ∧ pool (E.schedule t s) = pool s ++ [t]

/-- Pass number `n` (counting from 0) of the loop started on `s0` runs thread
`t` and no other, and the loop goes on after it. -/
def runsAt {X : Type} (E : Env X) (fuel : Nat) (s0 : VM X) (n : Nat) (t : Thread) : Prop :=
  ∃ s trs tr, passes E fuel (n + 1) s0 = Except.ok (true, s, trs) ∧
    trs[n]? = some tr ∧ threadsRun tr = [t]

/-- The machines of the concrete world on which nothing but running threads
is left to do. -/
def World.calm (s : VM World) : Prop :=
  s.exitRunRequested = false ∧ s.alarms = [] ∧ s.ext.terminated = [] ∧
    s.ext.suspended = [] ∧ s.ext.failedSpaces = [] ∧ s.ext.gcRequired = false ∧
    s.ext.dynamicExit = false

/-! ## The builtin `Chunk.new`

`ModChunk::New::operator()` of `src/vm/main/modules/modchunk.hh`. -/

/-- The result of an operation, after `BuiltinResult` of `store-decl.hh`: a
status (`brProceed`, `brWaitBefore`, `brRaise`) and, for the last two, the
node waited upon or the node holding the exception. -/
inductive OpResult (N : Type) where
  | proceed
  | waitFor (node : N)
  | raise (node : N)
  deriving DecidableEq, Repr

/-- The calls `New` makes into code outside `modchunk.hh`, over values `V`,
nodes `N` and machine states `S`: `isRecord` is
`RecordLike(underlying).isRecord(vm, isRecord)`, which receives the current
content of the `bool&` and returns the result with the new content; `build`
is `Chunk::build(vm, underlying)`; `typeError` makes the exception of a type
error from the expected type and the offending value. -/
structure Builtins (V N S : Type) where
  isRecord : V → S → Bool → OpResult N × Bool × S
  build : V → S → V × S
  typeError : String → V → S → N × S

/-- Modelled from the spec: the macro `MOZART_CHECK_OPRESULT`, which
`modchunk.hh` uses and does not define. A caller propagates a `wait-for` or a
`raise` it receives (section 4.2): a result other than `proceed` is returned
at once (`early`), and on `proceed` execution goes on (`rest`). -/
def checkOpResult {N R : Type} (r : OpResult N) (early : OpResult N → R) (rest : R) : R :=
  match r with
  | OpResult.proceed => rest
  | OpResult.waitFor n => early (OpResult.waitFor n)
  | OpResult.raise n => early (OpResult.raise n)

/-- Modelled from the spec: the helper `raiseTypeError(vm, expected, actual)`,
which `modchunk.hh` calls and does not define: the operation fails with
`raise(node)`, the node carrying the exception (section 3), here the type
error made from the expected type and the actual value. -/
def raiseTypeError {V N S : Type} (B : Builtins V N S) (expected : String) (actual : V)
    (s : S) : OpResult N × S :=
  (OpResult.raise (B.typeError expected actual s).1, (B.typeError expected actual s).2)

/-- The builtin `Chunk.new` (lines 48-58): `result` is the content of the
`Out` parameter on entry, and the second component of the value its content on
return. -/
def ModChunk.New {V N S : Type} (B : Builtins V N S) (underlying : V) (result : V) (s : S) :
    OpResult N × V × S :=
  let isRecord := false
  let c := B.isRecord underlying s isRecord
  checkOpResult c.1 (fun r => (r, result, c.2.2))
    (if c.2.1 then
      ((OpResult.proceed : OpResult N), (B.build underlying c.2.2).1,
        (B.build underlying c.2.2).2)
    else
      ((raiseTypeError B "Record" underlying c.2.2).1, result,
        (raiseTypeError B "Record" underlying c.2.2).2))

/-- Values for evaluating `Chunk.new`: records, numbers, unbound variables,
chunks and type-error exceptions. -/
inductive Val where
  | record (label : Nat)
  | number (n : Int)
  | unbound (var : Nat)
  | chunk (inner : Val)
  | typeError (expected : String) (actual : Val)
  deriving DecidableEq, Repr

/-- Modelled from the spec: collaborators of `Chunk.new` on `Val`, the state
counting the nodes allocated. `isRecord` proceeds with true on a record, with
false on a number or a chunk, and asks to wait on an unbound variable. -/
def Val.builtins : Builtins Val Val Nat where
  isRecord := fun v s b =>
    match v with
    | Val.record _ => (OpResult.proceed, true, s)
    | Val.unbound x => (OpResult.waitFor (Val.unbound x), b, s)
    | _ => (OpResult.proceed, false, s)
  build := fun v s => (Val.chunk v, s + 1)
  typeError := fun e v s => (Val.typeError e v, s + 1)

/-- The reference time and the alarm queue are left alone by the pops of the
thread pool, by `isTerminated()` and by the install of the top-level space. -/
structure ClockFrame {X : Type} (E : Env X) : Prop where
  popNext_alarms : ∀ s, (E.popNext s).2.alarms = s.alarms
  popNext_referenceTime : ∀ s, (E.popNext s).2.referenceTime = s.referenceTime
  isTerminated_alarms : ∀ t s, (E.isTerminated t s).2.alarms = s.alarms
  isTerminated_referenceTime : ∀ t s, (E.isTerminated t s).2.referenceTime = s.referenceTime
  install_alarms : ∀ s, (E.install E.topLevelSpace s).2.alarms = s.alarms
  install_referenceTime : ∀ s,
    (E.install E.topLevelSpace s).2.referenceTime = s.referenceTime

/-- A world in which a wake-up readies no thread and moves the reference clock
forward by 5 (advancing the clock is an entry point open to collaborators);
the rest is as in `plainEnv`. -/
def tickingEnv : Env World :=
  { plainEnv with wakeUp := fun _ s => { s with referenceTime := s.referenceTime + 5 } }

/-- A machine with an empty pool, the clock at 5, and alarms expiring at 5 and
at 7. -/
def tickingMachine : VM World :=
  World.machine 5 [⟨5, 10⟩, ⟨7, 11⟩] []

/-- A machine with an empty pool, the clock at 3, and an alarm expiring at
5. -/
def waitingMachine : VM World :=
  World.machine 3 [⟨5, 7⟩] []

/-! ## Theorems -/

theorem run_eq_ok {X : Type} {E : Env X} {fuel : Nat} {s s2 : VM X} {r : Int}
    {tr : List Event} (h : run E fuel s = Except.ok (r, s2, tr)) :
    ∃ s1 tr1, runLoop E fuel s = Except.ok (s1, tr1) ∧
      s2 = (E.install E.topLevelSpace s1).2 ∧ r = nextWake s2 ∧
      tr = tr1 ++ [Event.install E.topLevelSpace (E.install E.topLevelSpace s1).1] := by
  unfold run at h
  split at h
  · cases h
  · rename_i s1 tr1 hl
    simp only [Except.ok.injEq, Prod.mk.injEq] at h
    obtain ⟨h1, h2, h3⟩ := h
    exact ⟨s1, tr1, hl, h2.symm, by rw [← h1, h2], h3.symm⟩

theorem wrapInt64_of_inRange (x : Int) (h1 : -9223372036854775808 ≤ x)
    (h2 : x < 9223372036854775808) : wrapInt64 x = x := by
  unfold wrapInt64
  omega

/-- C1. Whenever `run()` returns, the value returned is computed on the
machine as it stands after the closing install of the top-level space that
follows the loop exit: it is `-1` when the alarm queue is empty there, it is
never less than `-1`, and when the queue is not empty and the subtraction
`expiration - referenceTime` of the front alarm stays within `std::int64_t`
(signed overflow is undefined in the source) it is
`max (expiration - referenceTime) 0`, hence `0` when the front alarm is due. -/
theorem run_returns_next_wake {X : Type} (E : Env X) (fuel : Nat) (s s2 : VM X) (r : Int)
    (tr : List Event) (h : run E fuel s = Except.ok (r, s2, tr)) :
    (∃ s1 tr1, runLoop E fuel s = Except.ok (s1, tr1) ∧
        s2 = (E.install E.topLevelSpace s1).2) ∧
    (s2.alarms = [] → r = -1) ∧
    (-1 ≤ r) ∧
    (∀ a rest, s2.alarms = a :: rest →
      -9223372036854775808 ≤ a.expiration - s2.referenceTime →
      a.expiration - s2.referenceTime < 9223372036854775808 →
        r = max (a.expiration - s2.referenceTime) 0 ∧
        (a.expiration ≤ s2.referenceTime → r = 0)) := by
  obtain ⟨s1, tr1, hl, hs, hr, -⟩ := run_eq_ok h
  refine ⟨⟨s1, tr1, hl, hs⟩, ?_, ?_, ?_⟩
  · intro he
    rw [hr]; unfold nextWake; rw [he]
  · rw [hr]; unfold nextWake
    split
    · exact le_refl _
    · exact le_trans (by decide) (le_max_right _ _)
  · intro a rest he h1 h2
    have hv : r = max (a.expiration - s2.referenceTime) 0 := by
      rw [hr]; unfold nextWake; rw [he]
      simp only [wrapInt64_of_inRange _ h1 h2]
    refine ⟨hv, ?_⟩
    intro hd
    rw [hv]
    exact max_eq_right (by omega)

/-- Witness for C1: with exit requested, clock at 3 and one alarm expiring at
5, `run()` returns at once with 2. -/
theorem run_returns_next_wake_witness :
    run plainEnv 1 exitRequestedMachine =
      Except.ok (2, (plainEnv.install 0 exitRequestedMachine).2, [Event.install 0 true]) ∧
    ((∃ s1 tr1, runLoop plainEnv 1 exitRequestedMachine = Except.ok (s1, tr1) ∧
        (plainEnv.install 0 exitRequestedMachine).2 =
          (plainEnv.install plainEnv.topLevelSpace s1).2) ∧
    ((plainEnv.install 0 exitRequestedMachine).2.alarms = [] → (2 : Int) = -1) ∧
    (-1 ≤ (2 : Int)) ∧
    (∀ a rest, (plainEnv.install 0 exitRequestedMachine).2.alarms = a :: rest →
      -9223372036854775808 ≤
        a.expiration - (plainEnv.install 0 exitRequestedMachine).2.referenceTime →
      a.expiration - (plainEnv.install 0 exitRequestedMachine).2.referenceTime
        < 9223372036854775808 →
        (2 : Int) =
          max (a.expiration - (plainEnv.install 0 exitRequestedMachine).2.referenceTime) 0 ∧
        (a.expiration ≤ (plainEnv.install 0 exitRequestedMachine).2.referenceTime →
          (2 : Int) = 0))) :=
  ⟨rfl, run_returns_next_wake plainEnv 1 exitRequestedMachine _ 2 _ rfl⟩

/-! ### Shape of the traces of the phases -/

theorem gcPhase_no_threadEvent {X : Type} (E : Env X) (s : VM X) :
    (gcPhase E s).2.filter Event.isThreadEvent = [] := by
  unfold gcPhase
  by_cases h : (E.isGCRequired s).1 = true <;> simp [h, Event.isThreadEvent]

theorem drainAlarms_alarmEvents {X : Type} (E : Env X) (now : Int) :
    ∀ (fuel : Nat) (s s2 : VM X) (tr : List Event),
      drainAlarms E now fuel s = Except.ok (s2, tr) → ∀ e ∈ tr, e.isAlarmEvent = true := by
  intro fuel
  induction fuel with
  | zero => intro s s2 tr h; simp [drainAlarms] at h
  | succ n ih =>
    intro s s2 tr h
    unfold drainAlarms at h
    split at h
    · simp only [Except.ok.injEq, Prod.mk.injEq] at h
      obtain ⟨-, rfl⟩ := h
      simp
    · split at h
      · simp only at h
        split at h
        · cases h
        · split at h
          · cases h
          · split at h
            · cases h
            · rename_i s3 tr3 hrec
              simp only [Except.ok.injEq, Prod.mk.injEq] at h
              obtain ⟨-, rfl⟩ := h
              intro e he
              simp only [List.mem_cons] at he
              rcases he with rfl | rfl | rfl | he
              · rfl
              · rfl
              · rfl
              · exact ih _ _ _ hrec e he
      · simp only [Except.ok.injEq, Prod.mk.injEq] at h
        obtain ⟨-, rfl⟩ := h
        simp

theorem filter_threadEvent_of_alarmEvents (tr : List Event)
    (h : ∀ e ∈ tr, e.isAlarmEvent = true) : tr.filter Event.isThreadEvent = [] := by
  rw [List.filter_eq_nil_iff]
  intro e he
  have := h e he
  cases e <;> simp_all [Event.isAlarmEvent, Event.isThreadEvent]

theorem selectThread_trace {X : Type} (E : Env X) :
    ∀ (fuel : Nat) (s s2 : VM X) (c : Option Thread) (tr : List Event),
      selectThread E fuel s = Except.ok (c, s2, tr) →
        ∃ discarded, tr = discardTrace discarded ++ selectTail c := by
  intro fuel
  induction fuel with
  | zero => intro s s2 c tr h; simp [selectThread] at h
  | succ n ih =>
    intro s s2 c tr h
    unfold selectThread at h
    split at h
    · simp only [Except.ok.injEq, Prod.mk.injEq] at h
      obtain ⟨rfl, -, rfl⟩ := h
      exact ⟨[], rfl⟩
    · rename_i t ht
      simp only at h
      split at h
      · split at h
        · cases h
        · rename_i c2 s3 tr3 hrec
          simp only [Except.ok.injEq, Prod.mk.injEq] at h
          obtain ⟨rfl, -, rfl⟩ := h
          obtain ⟨d, hd⟩ := ih _ _ _ _ hrec
          exact ⟨t :: d, by rw [hd]; rfl⟩
      · simp only [Except.ok.injEq, Prod.mk.injEq] at h
        obtain ⟨rfl, -, rfl⟩ := h
        exact ⟨[], rfl⟩

theorem discardTrace_selectEvents (d : List Thread) :
    ∀ e ∈ discardTrace d, e.isSelectEvent = true := by
  induction d with
  | nil => intro e he; simp [discardTrace] at he
  | cons t ts ih =>
    intro e he
    simp only [discardTrace, List.mem_cons] at he
    rcases he with rfl | rfl | he
    · rfl
    · rfl
    · exact ih e he

theorem selectTail_selectEvents (c : Option Thread) :
    ∀ e ∈ selectTail c, e.isSelectEvent = true := by
  intro e he
  cases c <;> simp [selectTail] at he <;> rcases he with rfl | rfl <;> rfl

theorem selectThread_selectEvents {X : Type} (E : Env X) (fuel : Nat) (s s2 : VM X)
    (c : Option Thread) (tr : List Event)
    (h : selectThread E fuel s = Except.ok (c, s2, tr)) :
    ∀ e ∈ tr, e.isSelectEvent = true := by
  obtain ⟨d, rfl⟩ := selectThread_trace E fuel s s2 c tr h
  intro e he
  rcases List.mem_append.1 he with h1 | h1
  · exact discardTrace_selectEvents d e h1
  · exact selectTail_selectEvents c e h1

theorem filter_threadEvent_of_selectEvents (tr : List Event)
    (h : ∀ e ∈ tr, e.isSelectEvent = true) : tr.filter Event.isThreadEvent = [] := by
  rw [List.filter_eq_nil_iff]
  intro e he
  have := h e he
  cases e <;> simp_all [Event.isSelectEvent, Event.isThreadEvent]

theorem loopBody_of_phases {X : Type} (E : Env X) (fuel : Nat) (s s2 s3 : VM X)
    (tr2 tr3 : List Event) (t : Thread)
    (hA : alarmPhase E fuel (gcPhase E s).1 = Except.ok (s2, tr2))
    (hS : selectThread E fuel s2 = Except.ok (some t, s3, tr3)) :
    loopBody E fuel s =
      match runThread E t s3 with
      | Except.error e => Except.error e
      | Except.ok (c, s4, tr4) => Except.ok (c, s4, (gcPhase E s).2 ++ tr2 ++ tr3 ++ tr4) := by
  unfold loopBody
  simp only [hA, hS]

theorem loopBody_of_phases_none {X : Type} (E : Env X) (fuel : Nat) (s s2 s3 : VM X)
    (tr2 tr3 : List Event)
    (hA : alarmPhase E fuel (gcPhase E s).1 = Except.ok (s2, tr2))
    (hS : selectThread E fuel s2 = Except.ok (none, s3, tr3)) :
    loopBody E fuel s = Except.ok (Control.leave, s3, (gcPhase E s).2 ++ tr2 ++ tr3) := by
  unfold loopBody
  simp only [hA, hS]

theorem phases_no_threadEvent {X : Type} (E : Env X) (fuel : Nat) (s s2 s3 : VM X)
    (tr2 tr3 : List Event) (c : Option Thread)
    (hA : alarmPhase E fuel (gcPhase E s).1 = Except.ok (s2, tr2))
    (hS : selectThread E fuel s2 = Except.ok (c, s3, tr3)) :
    ((gcPhase E s).2 ++ tr2 ++ tr3).filter Event.isThreadEvent = [] := by
  rw [List.filter_append, List.filter_append, gcPhase_no_threadEvent,
    filter_threadEvent_of_alarmEvents tr2 (drainAlarms_alarmEvents E _ _ _ _ _ hA),
    filter_threadEvent_of_selectEvents tr3 (selectThread_selectEvents E _ _ _ _ _ hS)]
  rfl

theorem mem_iff_of_filter_eq {α : Type} {p : α → Bool} (l : List α) {L : List α}
    (h : l.filter p = L) (e : α) (he : p e = true) : e ∈ l ↔ e ∈ L := by
  rw [← h, List.mem_filter]
  simp [he]

theorem loopCondition_no_threadEvent {X : Type} (E : Env X) (s : VM X) :
    (loopCondition E s).2.2.filter Event.isThreadEvent = [] := by
  unfold loopCondition
  split
  · rfl
  · split <;> simp [Event.isThreadEvent]

theorem runLoop_succ {X : Type} (E : Env X) (fuel : Nat) (s s1 : VM X) (tr : List Event)
    (h : loopPass E fuel s = Except.ok (true, s1, tr)) :
    runLoop E (fuel + 1) s =
      match runLoop E fuel s1 with
      | Except.error e => Except.error e
      | Except.ok (s2, tr2) => Except.ok (s2, tr ++ tr2) := by
  simp only [runLoop, h]

theorem worldEnv_poolView (prog : Thread → Quantum) (spaceOf : Thread → Space) :
    PoolView (World.env prog spaceOf) (fun s => s.ext.pool)
      (fun s t => decide (t ∈ s.ext.terminated)) where
  popNext_nil := by
    intro s h
    simp only [World.env] at *
    simp [h]
  popNext_cons := by
    intro s t rest h
    simp only [World.env] at *
    simp [h]
  popNext_term := by
    intro s
    simp only [World.env]
    cases h : s.ext.pool <;> simp
  isTerminated_result := by intro t s; rfl
  isTerminated_pool := by intro t s; rfl
  isTerminated_term := by intro t s; rfl

/-- C2. In a pass of the loop whose selected thread `t` belongs to a space
whose `install()` returns false, the body ends by `continue`: the loop goes on
with the next pass, `kill()` is called on `t`, and it is the only thing done
with a thread in the pass: no `run()`, no `schedule()`, no write of
`_currentThread`. -/
theorem failed_space_kills {X : Type} (E : Env X) (fuel : Nat) (s0 s2 s3 : VM X)
    (tr2 tr3 : List Event) (t : Thread)
    (hC : (loopCondition E s0).1 = true)
    (hA : alarmPhase E fuel (gcPhase E (loopCondition E s0).2.1).1 = Except.ok (s2, tr2))
    (hS : selectThread E fuel s2 = Except.ok (some t, s3, tr3))
    (hI : (E.install (E.getSpace t s3) s3).1 = false) :
    ∃ tr,
      loopPass E fuel s0 =
        Except.ok (true, E.kill t (E.install (E.getSpace t s3) s3).2, tr) ∧
      (runLoop E (fuel + 1) s0 =
        match runLoop E fuel (E.kill t (E.install (E.getSpace t s3) s3).2) with
        | Except.error e => Except.error e
        | Except.ok (s5, tr5) => Except.ok (s5, tr ++ tr5)) ∧
      tr = (loopCondition E s0).2.2 ++ ((gcPhase E (loopCondition E s0).2.1).2 ++ tr2 ++ tr3 ++
        [Event.install (E.getSpace t s3) false, Event.kill t]) ∧
      tr.filter Event.isThreadEvent = [Event.kill t] ∧
      Event.kill t ∈ tr ∧ Event.run t ∉ tr ∧ Event.schedule t ∉ tr ∧
      (∀ v, Event.setCurrentThread v ∉ tr) := by
  have hB := loopBody_of_phases E fuel _ s2 s3 tr2 tr3 t hA hS
  obtain ⟨tr0, htr0⟩ : ∃ tr0, tr0 = (loopCondition E s0).2.2 ++
      ((gcPhase E (loopCondition E s0).2.1).2 ++ tr2 ++ tr3 ++
        [Event.install (E.getSpace t s3) false, Event.kill t]) := ⟨_, rfl⟩
  have hR : runThread E t s3 = Except.ok (Control.next,
      E.kill t (E.install (E.getSpace t s3) s3).2,
      [Event.install (E.getSpace t s3) false, Event.kill t]) := by
    unfold runThread
    simp [hI]
  rw [hR] at hB
  simp only at hB
  have hP : loopPass E fuel s0 = Except.ok (true, E.kill t (E.install (E.getSpace t s3) s3).2,
      tr0) := by
    unfold loopPass
    simp only [hC, if_true, hB, htr0]
  have hF : tr0.filter Event.isThreadEvent = [Event.kill t] := by
    rw [htr0, List.filter_append, List.filter_append, loopCondition_no_threadEvent,
      phases_no_threadEvent E fuel _ s2 s3 tr2 tr3 (some t) hA hS]
    rfl
  have hmem := fun e he => mem_iff_of_filter_eq tr0 hF e he
  refine ⟨tr0, hP, runLoop_succ E fuel s0 _ _ hP, htr0, hF, ?_, ?_, ?_, ?_⟩
  · exact (hmem (Event.kill t) rfl).2 (List.mem_singleton.2 rfl)
  · intro h
    have := (hmem (Event.run t) rfl).1 h
    simp at this
  · intro h
    have := (hmem (Event.schedule t) rfl).1 h
    simp at this
  · intro v h
    have := (hmem (Event.setCurrentThread v) rfl).1 h
    simp at this

/-- Witness for C2: thread 4 is alone in the pool and its space has failed;
the pass kills it and the loop goes on. -/
theorem failed_space_kills_witness :
    loopPass plainEnv 2 failedSpaceMachine =
      Except.ok (true, plainEnv.kill 4 failedSpaceMachine.popped,
        [Event.isGCRequired false, Event.popNext (some 4), Event.isTerminated 4 false,
          Event.install 1 false, Event.kill 4]) ∧
    ∃ tr,
      loopPass plainEnv 2 failedSpaceMachine =
        Except.ok (true, plainEnv.kill 4
          (plainEnv.install (plainEnv.getSpace 4 failedSpaceMachine.popped)
            failedSpaceMachine.popped).2, tr) ∧
      (runLoop plainEnv (2 + 1) failedSpaceMachine =
        match runLoop plainEnv 2 (plainEnv.kill 4
          (plainEnv.install (plainEnv.getSpace 4 failedSpaceMachine.popped)
            failedSpaceMachine.popped).2) with
        | Except.error e => Except.error e
        | Except.ok (s5, tr5) => Except.ok (s5, tr ++ tr5)) ∧
      tr = (loopCondition plainEnv failedSpaceMachine).2.2 ++
        ((gcPhase plainEnv (loopCondition plainEnv failedSpaceMachine).2.1).2 ++ [] ++
          [Event.popNext (some 4), Event.isTerminated 4 false] ++
        [Event.install (plainEnv.getSpace 4 failedSpaceMachine.popped) false, Event.kill 4]) ∧
      tr.filter Event.isThreadEvent = [Event.kill 4] ∧
      Event.kill 4 ∈ tr ∧ Event.run 4 ∉ tr ∧ Event.schedule 4 ∉ tr ∧
      (∀ v, Event.setCurrentThread v ∉ tr) :=
  ⟨rfl, failed_space_kills plainEnv 2 failedSpaceMachine failedSpaceMachine
    failedSpaceMachine.popped [] [Event.popNext (some 4), Event.isTerminated 4 false] 4
    rfl rfl rfl rfl⟩

theorem selectThread_poolView {X : Type} (E : Env X) (pool : VM X → List Thread)
    (term : VM X → Thread → Bool) (hv : PoolView E pool term) :
    ∀ (fuel : Nat) (s : VM X), (pool s).length < fuel →
      ∃ s2, selectThread E fuel s =
          Except.ok (((pool s).dropWhile (term s)).head?, s2,
            discardTrace ((pool s).takeWhile (term s)) ++
              selectTail ((pool s).dropWhile (term s)).head?) ∧
        pool s2 = ((pool s).dropWhile (term s)).tail ∧ term s2 = term s := by
  intro fuel
  induction fuel with
  | zero => intro s h; omega
  | succ n ih =>
    intro s hf
    cases hp : pool s with
    | nil =>
      obtain ⟨h1, h2⟩ := hv.popNext_nil s hp
      refine ⟨(E.popNext s).2, ?_, ?_, hv.popNext_term s⟩
      · unfold selectThread
        simp [h1, discardTrace, selectTail]
      · simpa using h2
    | cons t rest =>
      obtain ⟨h1, h2⟩ := hv.popNext_cons s t rest hp
      have hres : (E.isTerminated t (E.popNext s).2).1 = term s t := by
        rw [hv.isTerminated_result, hv.popNext_term]
      have hpool : pool (E.isTerminated t (E.popNext s).2).2 = rest := by
        rw [hv.isTerminated_pool, h2]
      have hterm : term (E.isTerminated t (E.popNext s).2).2 = term s := by
        rw [hv.isTerminated_term, hv.popNext_term]
      by_cases ht : term s t = true
      · have hlen : (pool (E.isTerminated t (E.popNext s).2).2).length < n := by
          rw [hpool]; rw [hp] at hf; simp at hf; omega
        obtain ⟨s2, e1, e2, e3⟩ := ih _ hlen
        rw [hpool, hterm] at e1 e2
        refine ⟨s2, ?_, ?_, e3.trans hterm⟩
        · unfold selectThread
          simp only [h1, hres, ht, if_true, e1]
          simp [List.dropWhile, List.takeWhile, ht, discardTrace]
        · simpa [List.dropWhile, ht] using e2
      · have ht2 : term s t = false := by simpa using ht
        refine ⟨(E.isTerminated t (E.popNext s).2).2, ?_, ?_, hterm⟩
        · unfold selectThread
          simp [h1, hres, ht2, List.dropWhile, List.takeWhile, discardTrace, selectTail]
        · simpa [List.dropWhile, ht2] using hpool

/-- C3. Thread selection on a pool seen as a queue: the loop ends, having
popped the threads in queue order up to and including the first one that is
not terminated, which is the candidate (none when every queued thread is
terminated, the pool being then exhausted). The terminated threads before it
are discarded: all that is done with them is to pop them and ask
`isTerminated()`; no space is installed and nothing is run, killed or
scheduled, and they are no longer in the pool. -/
theorem select_skips_terminated {X : Type} (E : Env X) (pool : VM X → List Thread)
    (term : VM X → Thread → Bool) (hv : PoolView E pool term) (fuel : Nat) (s : VM X)
    (hf : (pool s).length < fuel) :
    ∃ s2 tr,
      selectThread E fuel s = Except.ok (((pool s).dropWhile (term s)).head?, s2, tr) ∧
      tr = discardTrace ((pool s).takeWhile (term s)) ++
        selectTail ((pool s).dropWhile (term s)).head? ∧
      pool s2 = ((pool s).dropWhile (term s)).tail ∧
      (∀ t ∈ (pool s).takeWhile (term s), term s t = true) ∧
      (∀ t, ((pool s).dropWhile (term s)).head? = some t → term s t = false) ∧
      (∀ e ∈ tr, e.isSelectEvent = true) ∧
      (∀ e ∈ tr, ∀ sp b t, e ≠ Event.install sp b ∧ e ≠ Event.run t ∧ e ≠ Event.kill t ∧
        e ≠ Event.schedule t) := by
  obtain ⟨s2, h1, h2, -⟩ := selectThread_poolView E pool term hv fuel s hf
  have hsel := selectThread_selectEvents E fuel s s2 _ _ h1
  refine ⟨s2, _, h1, rfl, h2, ?_, ?_, hsel, ?_⟩
  · intro t ht
    exact List.mem_takeWhile_imp ht
  · intro t ht
    have := List.head?_dropWhile_not (term s) (pool s)
    rw [ht] at this
    simpa using this
  · intro e he sp b t
    have := hsel e he
    refine ⟨?_, ?_, ?_, ?_⟩ <;> intro h <;> rw [h] at this <;> cases this

/-- Witness for C3: from the pool `[1, 2, 3, 4]` with 1 and 2 terminated, the
selection discards 1 and 2, chooses 3 and leaves `[4]`. -/
theorem select_skips_terminated_witness :
    selectThread plainEnv 5 staleMachine =
      Except.ok (some 3, staleMachine.popped.popped.popped,
        [Event.popNext (some 1), Event.isTerminated 1 true, Event.popNext (some 2),
          Event.isTerminated 2 true, Event.popNext (some 3), Event.isTerminated 3 false]) ∧
    ∃ s2 tr,
      selectThread plainEnv 5 staleMachine =
        Except.ok (([1, 2, 3, 4].dropWhile
          (fun t => decide (t ∈ staleMachine.ext.terminated))).head?, s2, tr) ∧
      tr = discardTrace ([1, 2, 3, 4].takeWhile
          (fun t => decide (t ∈ staleMachine.ext.terminated))) ++
        selectTail ([1, 2, 3, 4].dropWhile
          (fun t => decide (t ∈ staleMachine.ext.terminated))).head? ∧
      s2.ext.pool = ([1, 2, 3, 4].dropWhile
          (fun t => decide (t ∈ staleMachine.ext.terminated))).tail ∧
      (∀ t ∈ [1, 2, 3, 4].takeWhile (fun t => decide (t ∈ staleMachine.ext.terminated)),
        decide (t ∈ staleMachine.ext.terminated) = true) ∧
      (∀ t, ([1, 2, 3, 4].dropWhile
          (fun t => decide (t ∈ staleMachine.ext.terminated))).head? = some t →
        decide (t ∈ staleMachine.ext.terminated) = false) ∧
      (∀ e ∈ tr, e.isSelectEvent = true) ∧
      (∀ e ∈ tr, ∀ sp b t, e ≠ Event.install sp b ∧ e ≠ Event.run t ∧ e ≠ Event.kill t ∧
        e ≠ Event.schedule t) :=
  ⟨rfl, select_skips_terminated plainEnv (fun s => s.ext.pool)
    (fun s t => decide (t ∈ s.ext.terminated))
    (worldEnv_poolView (fun _ => Quantum.stay) (fun _ => 1)) 5 staleMachine (by decide)⟩

/-! ### The alarm phase -/

theorem worldEnv_alarmFrame (prog : Thread → Quantum) (spaceOf : Thread → Space) :
    AlarmFrame (World.env prog spaceOf) where
  install_alarms := by
    intro s
    simp only [World.env]
    split <;> rfl
  wakeUp_alarms := by intro n s; rfl

theorem drainAlarms_frame {X : Type} (E : Env X) (hfr : AlarmFrame E) (now : Int) :
    ∀ (fuel : Nat) (s : VM X), s.alarms.length < fuel →
      ∃ s2 oks, drainAlarms E now fuel s =
          Except.ok (s2, fireTrace E.topLevelSpace
            ((s.alarms.takeWhile (fun a => decide (a.expiration ≤ now))).zip oks)) ∧
        oks.length = (s.alarms.takeWhile (fun a => decide (a.expiration ≤ now))).length ∧
        s2.alarms = s.alarms.dropWhile (fun a => decide (a.expiration ≤ now)) := by
  intro fuel
  induction fuel with
  | zero => intro s h; omega
  | succ n ih =>
    intro s hf
    cases hal : s.alarms with
    | nil =>
      refine ⟨s, [], ?_, rfl, ?_⟩
      · unfold drainAlarms
        simp [hal, fireTrace]
      · simp [hal]
    | cons a rest =>
      by_cases hd : a.expiration ≤ now
      · have h1 : (E.install E.topLevelSpace s).2.alarms = a :: rest := by
          rw [hfr.install_alarms, hal]
        have h2 : (E.wakeUp a.wakeable (E.install E.topLevelSpace s).2).alarms = a :: rest := by
          rw [hfr.wakeUp_alarms, h1]
        have hlen : (({ E.wakeUp a.wakeable (E.install E.topLevelSpace s).2 with
            alarms := rest } : VM X)).alarms.length < n := by
          rw [hal] at hf; simp at hf; simpa using hf
        obtain ⟨s2, oks, e1, e2, e3⟩ := ih _ hlen
        simp only at e1 e2 e3
        refine ⟨s2, (E.install E.topLevelSpace s).1 :: oks, ?_, ?_, ?_⟩
        · unfold drainAlarms
          simp only [hal, hd, if_true, h1, h2, e1]
          simp [List.takeWhile, hd, fireTrace]
        · simp [List.takeWhile, hd, e2]
        · simp [List.dropWhile, hd, e3]
      · refine ⟨s, [], ?_, ?_, ?_⟩
        · unfold drainAlarms
          simp [hal, hd, List.takeWhile, fireTrace]
        · simp [List.takeWhile, hd]
        · simp [List.dropWhile, hd, hal]

theorem takeWhile_eq_filter_of_sorted (now : Int) :
    ∀ l : List Alarm, (l.map Alarm.expiration).Pairwise (fun x y => x ≤ y) →
      l.takeWhile (fun a => decide (a.expiration ≤ now)) =
          l.filter (fun a => decide (a.expiration ≤ now)) ∧
      l.dropWhile (fun a => decide (a.expiration ≤ now)) =
          l.filter (fun a => decide (now < a.expiration)) := by
  intro l
  induction l with
  | nil => intro _; simp
  | cons a rest ih =>
    intro h
    simp only [List.map_cons, List.pairwise_cons, List.mem_map, forall_exists_index,
      and_imp, forall_apply_eq_imp_iff₂] at h
    obtain ⟨h1, h2⟩ := h
    by_cases hd : a.expiration ≤ now
    · obtain ⟨i1, i2⟩ := ih h2
      have hn : ¬ now < a.expiration := by omega
      constructor
      · simp [List.takeWhile, List.filter, hd, i1]
      · simp [List.dropWhile, List.filter, hd, hn, i2]
    · have hlt : now < a.expiration := by omega
      have hall : ∀ b ∈ rest, now < b.expiration := fun b hb => lt_of_lt_of_le hlt (h1 b hb)
      constructor
      · simp only [List.takeWhile, hd, decide_False, List.filter]
        symm
        rw [List.filter_eq_nil_iff]
        intro b hb
        have := hall b hb
        simp only [decide_eq_true_eq]
        omega
      · simp only [List.dropWhile, hd, decide_False, List.filter, hlt, decide_True]
        congr 1
        symm
        rw [List.filter_eq_self]
        intro b hb
        simpa using hall b hb

theorem fireTrace_woken (top : Space) :
    ∀ (l : List Alarm) (oks : List Bool), oks.length = l.length →
      (fireTrace top (l.zip oks)).filterMap Event.woken = l ∧
      (fireTrace top (l.zip oks)).filterMap Event.removed = l := by
  intro l
  induction l with
  | nil => intro oks _; simp [fireTrace]
  | cons a rest ih =>
    intro oks h
    cases oks with
    | nil => simp at h
    | cons b oks =>
      simp only [List.length_cons, Nat.add_right_cancel_iff] at h
      obtain ⟨i1, i2⟩ := ih oks h
      constructor
      · simp only [List.zip_cons_cons, fireTrace, List.filterMap_cons, Event.woken]
        exact congrArg (List.cons a) i1
      · simp only [List.zip_cons_cons, fireTrace, List.filterMap_cons, Event.removed]
        exact congrArg (List.cons a) i2

/-- C4. The alarm phase of a pass, on a queue ordered by expiration and left
alone by the install of the top-level space and by the wake-ups, with `now`
the reference time read when the phase starts: the phase ends, it fires the
alarms with `expiration ≤ now`, each once and in queue order (so by
non-decreasing expiration), each firing being an install of the top-level
space, the wake-up, then the removal of that alarm, and it leaves in the queue
the alarms with `now < expiration`, in their order. -/
theorem alarms_fire_in_order {X : Type} (E : Env X) (hfr : AlarmFrame E) (fuel : Nat)
    (s : VM X) (hs : (s.alarms.map Alarm.expiration).Pairwise (fun x y => x ≤ y))
    (hf : s.alarms.length < fuel) :
    ∃ s2 tr oks,
      alarmPhase E fuel s = Except.ok (s2, tr) ∧
      oks.length = (s.alarms.filter (fun a => decide (a.expiration ≤ s.referenceTime))).length ∧
      tr = fireTrace E.topLevelSpace
        ((s.alarms.filter (fun a => decide (a.expiration ≤ s.referenceTime))).zip oks) ∧
      tr.filterMap Event.woken =
        s.alarms.filter (fun a => decide (a.expiration ≤ s.referenceTime)) ∧
      tr.filterMap Event.removed =
        s.alarms.filter (fun a => decide (a.expiration ≤ s.referenceTime)) ∧
      ((tr.filterMap Event.woken).map Alarm.expiration).Pairwise (fun x y => x ≤ y) ∧
      s2.alarms = s.alarms.filter (fun a => decide (s.referenceTime < a.expiration)) := by
  obtain ⟨s2, oks, h1, h2, h3⟩ := drainAlarms_frame E hfr s.referenceTime fuel s hf
  obtain ⟨e1, e2⟩ := takeWhile_eq_filter_of_sorted s.referenceTime s.alarms hs
  rw [e1] at h1 h2
  rw [e2] at h3
  obtain ⟨w1, w2⟩ := fireTrace_woken E.topLevelSpace _ oks h2
  refine ⟨s2, _, oks, h1, h2, rfl, w1, w2, ?_, h3⟩
  rw [w1]
  exact List.Pairwise.sublist (List.Sublist.map _ (List.filter_sublist _)) hs

/-- Witness for C4: the queue `[2, 2, 5, 9]` with the reference time at 9
fires 2, 2, 5, 9 in that order and is left empty. -/
theorem alarms_fire_in_order_witness :
    (∃ s2, alarmPhase plainEnv 5 alarmMachine =
        Except.ok (s2,
          [Event.install 0 true, Event.wakeUp ⟨2, 10⟩, Event.removeFront ⟨2, 10⟩,
           Event.install 0 true, Event.wakeUp ⟨2, 11⟩, Event.removeFront ⟨2, 11⟩,
           Event.install 0 true, Event.wakeUp ⟨5, 12⟩, Event.removeFront ⟨5, 12⟩,
           Event.install 0 true, Event.wakeUp ⟨9, 13⟩, Event.removeFront ⟨9, 13⟩]) ∧
        s2.alarms = []) ∧
    ∃ s2 tr oks,
      alarmPhase plainEnv 5 alarmMachine = Except.ok (s2, tr) ∧
      oks.length = (alarmMachine.alarms.filter
        (fun a => decide (a.expiration ≤ alarmMachine.referenceTime))).length ∧
      tr = fireTrace plainEnv.topLevelSpace
        ((alarmMachine.alarms.filter
          (fun a => decide (a.expiration ≤ alarmMachine.referenceTime))).zip oks) ∧
      tr.filterMap Event.woken =
        alarmMachine.alarms.filter (fun a => decide (a.expiration ≤ alarmMachine.referenceTime)) ∧
      tr.filterMap Event.removed =
        alarmMachine.alarms.filter (fun a => decide (a.expiration ≤ alarmMachine.referenceTime)) ∧
      ((tr.filterMap Event.woken).map Alarm.expiration).Pairwise (fun x y => x ≤ y) ∧
      s2.alarms =
        alarmMachine.alarms.filter (fun a => decide (alarmMachine.referenceTime < a.expiration)) :=
  ⟨⟨_, rfl, rfl⟩, alarms_fire_in_order plainEnv
    (worldEnv_alarmFrame (fun _ => Quantum.stay) (fun _ => 1)) 5 alarmMachine
    (by decide) (by decide)⟩

/-! ### The selected thread -/

theorem assertRunnable_trace {X : Type} (E : Env X) (t : Thread) (s : VM X)
    (h : (assertRunnable E t s).1 = true) :
    (assertRunnable E t s).2.2 = [] ∨
      (assertRunnable E t s).2.2 = [Event.assertRunnable t true] := by
  unfold assertRunnable at h ⊢
  split
  · rename_i ha
    simp only [ha, if_true] at h
    right
    simp only [h]
  · left; rfl

theorem runQuantum_trace {X : Type} (E : Env X) (t : Thread) (s : VM X) :
    (runQuantum E t s).2 =
      [Event.setCurrentThread (some t), Event.clearPreemptRequested, Event.run t,
        Event.setCurrentThread none,
        Event.isRunnable t (E.isRunnable t (afterQuantum E t s)).1] ++
      (if (E.isRunnable t (afterQuantum E t s)).1 then [Event.schedule t] else []) := by
  unfold runQuantum
  by_cases h : (E.isRunnable t (afterQuantum E t s)).1 = true <;> simp [h]

theorem runQuantum_state {X : Type} (E : Env X) (t : Thread) (s : VM X) :
    (runQuantum E t s).1 =
      if (E.isRunnable t (afterQuantum E t s)).1 then
        E.schedule t (E.isRunnable t (afterQuantum E t s)).2
      else (E.isRunnable t (afterQuantum E t s)).2 := by
  unfold runQuantum
  by_cases h : (E.isRunnable t (afterQuantum E t s)).1 = true <;> simp [h]

theorem runThread_ok {X : Type} (E : Env X) (t : Thread) (s s2 : VM X) (c : Control)
    (tr : List Event) (h : runThread E t s = Except.ok (c, s2, tr)) :
    c = Control.next ∧
    (((E.install (E.getSpace t s) s).1 = false ∧
        s2 = E.kill t (E.install (E.getSpace t s) s).2 ∧
        tr = [Event.install (E.getSpace t s) false, Event.kill t]) ∨
      ((E.install (E.getSpace t s) s).1 = true ∧
        ∃ (chk : List Event) (s1 : VM X),
          (chk = [] ∨ chk = [Event.assertRunnable t true]) ∧
          s2 = (runQuantum E t s1).1 ∧
          tr = Event.install (E.getSpace t s) true :: (chk ++ (runQuantum E t s1).2))) := by
  unfold runThread at h
  simp only at h
  split at h
  · rename_i hI
    split at h
    · rename_i hc
      simp only [Except.ok.injEq, Prod.mk.injEq] at h
      obtain ⟨rfl, rfl, rfl⟩ := h
      exact ⟨rfl, Or.inr ⟨hI, _, _, assertRunnable_trace E t _ hc, rfl, rfl⟩⟩
    · cases h
  · rename_i hI
    simp only [Except.ok.injEq, Prod.mk.injEq] at h
    obtain ⟨rfl, rfl, rfl⟩ := h
    exact ⟨rfl, Or.inl ⟨by simpa using hI, rfl, rfl⟩⟩
theorem not_mem_of_filter_threadEvent_nil (l : List Event)
    (h : l.filter Event.isThreadEvent = []) (e : Event) (he : e.isThreadEvent = true) :
    e ∉ l := by
  intro hm
  have := (mem_iff_of_filter_eq l h e he).1 hm
  cases this

theorem loopBody_ok {X : Type} (E : Env X) (fuel : Nat) (s s4 : VM X) (c : Control)
    (tr : List Event) (h : loopBody E fuel s = Except.ok (c, s4, tr)) :
    ∃ s2 tr2 s3 tr3 sel,
      alarmPhase E fuel (gcPhase E s).1 = Except.ok (s2, tr2) ∧
      selectThread E fuel s2 = Except.ok (sel, s3, tr3) ∧
      ((sel = none ∧ c = Control.leave ∧ s4 = s3 ∧ tr = (gcPhase E s).2 ++ tr2 ++ tr3) ∨
       (∃ t tr4, sel = some t ∧ runThread E t s3 = Except.ok (c, s4, tr4) ∧
          tr = (gcPhase E s).2 ++ tr2 ++ tr3 ++ tr4)) := by
  unfold loopBody at h
  simp only at h
  split at h
  · cases h
  · rename_i s2 tr2 hA
    split at h
    · cases h
    · rename_i s3 tr3 hS
      simp only [Except.ok.injEq, Prod.mk.injEq] at h
      obtain ⟨rfl, rfl, rfl⟩ := h
      exact ⟨s2, tr2, _, tr3, none, hA, hS, Or.inl ⟨rfl, rfl, rfl, rfl⟩⟩
    · rename_i t s3 tr3 hS
      split at h
      · cases h
      · rename_i c4 s5 tr4 hR
        simp only [Except.ok.injEq, Prod.mk.injEq] at h
        obtain ⟨rfl, rfl, rfl⟩ := h
        exact ⟨s2, tr2, s3, tr3, some t, hA, hS, Or.inr ⟨t, tr4, rfl, hR, rfl⟩⟩

/-- C5. In a pass of the loop in which thread `t` was run: what follows the
return of `run()` is the reset of `_currentThread`, the call of
`isRunnable()` on `t`, and then `schedule(t)` exactly when that call returned
true. Nothing is scheduled before, so over the pass `schedule` is called on
`t` once if the thread is still runnable and not at all otherwise, and on no
other thread. -/
theorem requeue_iff_runnable {X : Type} (E : Env X) (fuel : Nat) (s s4 : VM X) (c : Control)
    (tr : List Event) (t : Thread)
    (h : loopBody E fuel s = Except.ok (c, s4, tr)) (hrun : Event.run t ∈ tr) :
    ∃ (pre : List Event) (s1 : VM X),
      tr = pre ++ ([Event.run t, Event.setCurrentThread none,
          Event.isRunnable t (E.isRunnable t (afterQuantum E t s1)).1] ++
        (if (E.isRunnable t (afterQuantum E t s1)).1 then [Event.schedule t] else [])) ∧
      (∀ u, Event.run u ∉ pre ∧ Event.schedule u ∉ pre) ∧
      tr.count (Event.schedule t) =
        (if (E.isRunnable t (afterQuantum E t s1)).1 then 1 else 0) ∧
      (Event.schedule t ∈ tr ↔ (E.isRunnable t (afterQuantum E t s1)).1 = true) ∧
      (∀ u, u ≠ t → Event.schedule u ∉ tr) ∧
      s4 = (if (E.isRunnable t (afterQuantum E t s1)).1 then
          E.schedule t (E.isRunnable t (afterQuantum E t s1)).2
        else (E.isRunnable t (afterQuantum E t s1)).2) ∧
      c = Control.next := by
  obtain ⟨s2, tr2, s3, tr3, sel, hA, hS, hcase⟩ := loopBody_ok E fuel s s4 c tr h
  have hpre := phases_no_threadEvent E fuel s s2 s3 tr2 tr3 sel hA hS
  have hnot := not_mem_of_filter_threadEvent_nil _ hpre
  rcases hcase with ⟨-, -, -, rfl⟩ | ⟨t2, tr4, -, hR, rfl⟩
  · exact absurd hrun (hnot _ rfl)
  · obtain ⟨hc, hk | ⟨-, chk, s1, hchk, hs4, htr4⟩⟩ := runThread_ok E t2 s3 s4 c tr4 hR
    · obtain ⟨-, -, rfl⟩ := hk
      rcases List.mem_append.1 hrun with h1 | h1
      · exact absurd h1 (hnot _ rfl)
      · simp at h1
    · have ht : t = t2 := by
        rw [htr4, runQuantum_trace] at hrun
        rcases List.mem_append.1 hrun with h1 | h1
        · exact absurd h1 (hnot _ rfl)
        · rcases hchk with rfl | rfl
          · by_cases hq : (E.isRunnable t2 (afterQuantum E t2 s1)).1 = true <;>
              simp [hq] at h1 <;> exact h1
          · by_cases hq : (E.isRunnable t2 (afterQuantum E t2 s1)).1 = true <;>
              simp [hq] at h1 <;> exact h1
      subst ht
      have hP : ∀ u, Event.run u ∉ (gcPhase E s).2 ++ tr2 ++ tr3 ++
            (Event.install (E.getSpace t s3) true :: (chk ++
              [Event.setCurrentThread (some t), Event.clearPreemptRequested])) ∧
          Event.schedule u ∉ (gcPhase E s).2 ++ tr2 ++ tr3 ++
            (Event.install (E.getSpace t s3) true :: (chk ++
              [Event.setCurrentThread (some t), Event.clearPreemptRequested])) := by
        intro u
        constructor
        · intro hm
          rcases List.mem_append.1 hm with h1 | h1
          · exact absurd h1 (hnot _ rfl)
          · rcases hchk with rfl | rfl <;> simp at h1
        · intro hm
          rcases List.mem_append.1 hm with h1 | h1
          · exact absurd h1 (hnot _ rfl)
          · rcases hchk with rfl | rfl <;> simp at h1
      have htr : (gcPhase E s).2 ++ tr2 ++ tr3 ++ tr4 =
          ((gcPhase E s).2 ++ tr2 ++ tr3 ++
            (Event.install (E.getSpace t s3) true :: (chk ++
              [Event.setCurrentThread (some t), Event.clearPreemptRequested]))) ++
          ([Event.run t, Event.setCurrentThread none,
              Event.isRunnable t (E.isRunnable t (afterQuantum E t s1)).1] ++
            (if (E.isRunnable t (afterQuantum E t s1)).1 then [Event.schedule t] else [])) := by
        rw [htr4, runQuantum_trace]
        simp
      refine ⟨_, s1, htr, hP, ?_, ?_, ?_, ?_, hc⟩
      · rw [htr, List.count_append, List.count_eq_zero_of_not_mem (hP t).2]
        by_cases hq : (E.isRunnable t (afterQuantum E t s1)).1 = true <;>
          simp [hq, List.count_cons]
      · rw [htr]
        constructor
        · intro hm
          rcases List.mem_append.1 hm with h1 | h1
          · exact absurd h1 (hP t).2
          · by_cases hq : (E.isRunnable t (afterQuantum E t s1)).1 = true
            · exact hq
            · simp [hq] at h1
        · intro hq
          simp [hq]
      · intro u hu hm
        rw [htr] at hm
        rcases List.mem_append.1 hm with h1 | h1
        · exact absurd h1 (hP u).2
        · by_cases hq : (E.isRunnable t (afterQuantum E t s1)).1 = true <;>
            simp [hq] at h1
          exact hu h1
      · rw [hs4, runQuantum_state]
/-- Witness for C5: in the scenario, the first pass runs `T1`, which
terminates and is not scheduled; the pass that follows runs `T2`, which stays
ready and is scheduled once. -/
theorem requeue_iff_runnable_witness :
    (∃ s4 tr, loopBody scenarioEnv 3 scenarioMachine = Except.ok (Control.next, s4, tr) ∧
      Event.run 1 ∈ tr ∧ Event.schedule 1 ∉ tr ∧ s4.ext.pool = [2] ∧
      ∃ (pre : List Event) (s1 : VM World),
        tr = pre ++ ([Event.run 1, Event.setCurrentThread none,
            Event.isRunnable 1 (scenarioEnv.isRunnable 1 (afterQuantum scenarioEnv 1 s1)).1] ++
          (if (scenarioEnv.isRunnable 1 (afterQuantum scenarioEnv 1 s1)).1
            then [Event.schedule 1] else [])) ∧
        (∀ u, Event.run u ∉ pre ∧ Event.schedule u ∉ pre) ∧
        tr.count (Event.schedule 1) =
          (if (scenarioEnv.isRunnable 1 (afterQuantum scenarioEnv 1 s1)).1 then 1 else 0) ∧
        (Event.schedule 1 ∈ tr ↔
          (scenarioEnv.isRunnable 1 (afterQuantum scenarioEnv 1 s1)).1 = true) ∧
        (∀ u, u ≠ 1 → Event.schedule u ∉ tr) ∧
        s4 = (if (scenarioEnv.isRunnable 1 (afterQuantum scenarioEnv 1 s1)).1 then
            scenarioEnv.schedule 1 (scenarioEnv.isRunnable 1 (afterQuantum scenarioEnv 1 s1)).2
          else (scenarioEnv.isRunnable 1 (afterQuantum scenarioEnv 1 s1)).2) ∧
        Control.next = Control.next) ∧
    (∃ s4 tr, loopBody scenarioEnv 3 (World.machine 0 [] [2]) =
        Except.ok (Control.next, s4, tr) ∧
      Event.run 2 ∈ tr ∧ tr.count (Event.schedule 2) = 1 ∧ s4.ext.pool = [2]) :=
  ⟨⟨_, _, rfl, by decide, by decide, rfl,
      requeue_iff_runnable scenarioEnv 3 scenarioMachine _ Control.next _ 1 rfl (by decide)⟩,
    ⟨_, _, rfl, by decide, by decide, rfl⟩⟩

/-! ### More fuel changes nothing -/

theorem drainAlarms_succ {X : Type} (E : Env X) (now : Int) :
    ∀ (n : Nat) (s : VM X) (r : VM X × List Event),
      drainAlarms E now n s = Except.ok r → drainAlarms E now (n + 1) s = Except.ok r := by
  intro n
  induction n with
  | zero => intro s r h; simp [drainAlarms] at h
  | succ n ih =>
    intro s r h
    unfold drainAlarms at h ⊢
    split at h
    · rename_i hal
      try simp only [hal]
      exact h
    · rename_i a rest hal
      try simp only [hal]
      split at h
      · rename_i hd
        try simp only [hd, if_true]
        simp only at h
        split at h
        · cases h
        · rename_i a1 r1 h1
          try simp only [h1]
          split at h
          · cases h
          · rename_i a2 r2 h2
            try simp only [h2]
            split at h
            · cases h
            · rename_i s3 tr3 hrec
              rw [ih _ _ hrec]
              exact h
      · rename_i hd
        try simp only [hd, if_false]
        exact h

theorem drainAlarms_mono {X : Type} (E : Env X) (now : Int) (n m : Nat) (s : VM X)
    (r : VM X × List Event) (h : drainAlarms E now n s = Except.ok r) (hnm : n ≤ m) :
    drainAlarms E now m s = Except.ok r := by
  induction hnm with
  | refl => exact h
  | step _ ih => exact drainAlarms_succ E now _ s r ih

theorem selectThread_succ {X : Type} (E : Env X) :
    ∀ (n : Nat) (s : VM X) (r : Option Thread × VM X × List Event),
      selectThread E n s = Except.ok r → selectThread E (n + 1) s = Except.ok r := by
  intro n
  induction n with
  | zero => intro s r h; simp [selectThread] at h
  | succ n ih =>
    intro s r h
    unfold selectThread at h ⊢
    split at h
    · rename_i hp
      try simp only [hp]
      exact h
    · rename_i t hp
      try simp only [hp]
      simp only at h
      split at h
      · rename_i ht
        try simp only [ht, if_true]
        split at h
        · cases h
        · rename_i c s2 tr hrec
          rw [ih _ _ hrec]
          exact h
      · rename_i ht
        try simp only [ht]
        exact h

theorem selectThread_mono {X : Type} (E : Env X) (n m : Nat) (s : VM X)
    (r : Option Thread × VM X × List Event) (h : selectThread E n s = Except.ok r)
    (hnm : n ≤ m) : selectThread E m s = Except.ok r := by
  induction hnm with
  | refl => exact h
  | step _ ih => exact selectThread_succ E _ s r ih

theorem loopBody_mono {X : Type} (E : Env X) (n m : Nat) (s : VM X)
    (r : Control × VM X × List Event) (h : loopBody E n s = Except.ok r) (hnm : n ≤ m) :
    loopBody E m s = Except.ok r := by
  obtain ⟨c, s4, tr⟩ := r
  obtain ⟨s2, tr2, s3, tr3, sel, hA, hS, hcase⟩ := loopBody_ok E n s s4 c tr h
  have hA2 : alarmPhase E m (gcPhase E s).1 = Except.ok (s2, tr2) :=
    drainAlarms_mono E _ n m _ _ hA hnm
  have hS2 := selectThread_mono E n m s2 _ hS hnm
  rcases hcase with ⟨rfl, rfl, rfl, rfl⟩ | ⟨t, tr4, rfl, hR, rfl⟩
  · exact loopBody_of_phases_none E m s s2 _ tr2 tr3 hA2 hS2
  · rw [loopBody_of_phases E m s s2 s3 tr2 tr3 t hA2 hS2, hR]

theorem loopPass_mono {X : Type} (E : Env X) (n m : Nat) (s : VM X)
    (r : Bool × VM X × List Event) (h : loopPass E n s = Except.ok r) (hnm : n ≤ m) :
    loopPass E m s = Except.ok r := by
  unfold loopPass at h ⊢
  simp only at h ⊢
  split at h
  · rename_i hc
    try simp only [hc, if_true]
    split at h
    · cases h
    · rename_i s2 tr hb
      rw [loopBody_mono E n m _ _ hb hnm]
      exact h
    · rename_i s2 tr hb
      rw [loopBody_mono E n m _ _ hb hnm]
      exact h
  · rename_i hc
    try simp only [hc]
    exact h

theorem runLoop_succ_mono {X : Type} (E : Env X) :
    ∀ (n : Nat) (s : VM X) (r : VM X × List Event),
      runLoop E n s = Except.ok r → runLoop E (n + 1) s = Except.ok r := by
  intro n
  induction n with
  | zero => intro s r h; simp [runLoop] at h
  | succ n ih =>
    intro s r h
    unfold runLoop at h ⊢
    split at h
    · cases h
    · rename_i s1 tr hp
      rw [loopPass_mono E n (n + 1) s _ hp (Nat.le_succ n)]
      exact h
    · rename_i s1 tr hp
      rw [loopPass_mono E n (n + 1) s _ hp (Nat.le_succ n)]
      simp only
      split at h
      · cases h
      · rename_i s2 tr2 hrec
        rw [ih _ _ hrec]
        exact h

theorem runLoop_mono {X : Type} (E : Env X) (n m : Nat) (s : VM X)
    (r : VM X × List Event) (h : runLoop E n s = Except.ok r) (hnm : n ≤ m) :
    runLoop E m s = Except.ok r := by
  induction hnm with
  | refl => exact h
  | step _ ih => exact runLoop_succ_mono E _ s r ih

theorem run_mono {X : Type} (E : Env X) (n m : Nat) (s : VM X)
    (r : Int × VM X × List Event) (h : run E n s = Except.ok r) (hnm : n ≤ m) :
    run E m s = Except.ok r := by
  unfold run at h ⊢
  split at h
  · cases h
  · rename_i s1 tr hl
    rw [runLoop_mono E n m s _ hl hnm]
    exact h

/-! ### Passes and the loop -/

/-- Every execution of the loop that ends goes through the passes that
`passes` lists: its trace starts with theirs and it goes on from the machine
they lead to. -/
theorem runLoop_of_passes {X : Type} (E : Env X) (f : Nat) :
    ∀ (n : Nat) (s s2 sF : VM X) (trs : List (List Event)) (m : Nat) (tr : List Event),
      passes E f n s = Except.ok (true, s2, trs) → runLoop E m s = Except.ok (sF, tr) →
        ∃ tr2, runLoop E m s2 = Except.ok (sF, tr2) ∧ tr = trs.flatten ++ tr2 := by
  intro n
  induction n with
  | zero =>
    intro s s2 sF trs m tr hp hl
    simp only [passes, Except.ok.injEq, Prod.mk.injEq, true_and] at hp
    obtain ⟨rfl, rfl⟩ := hp
    exact ⟨tr, hl, by simp⟩
  | succ n ih =>
    intro s s2 sF trs m tr hp hl
    unfold passes at hp
    split at hp
    · cases hp
    · simp at hp
    · rename_i s1 tr1 hp1
      split at hp
      · cases hp
      · rename_i b s3 trs3 hrec
        simp only [Except.ok.injEq, Prod.mk.injEq] at hp
        obtain ⟨rfl, rfl, rfl⟩ := hp
        cases m with
        | zero => simp [runLoop] at hl
        | succ k =>
          have hmono := loopPass_mono E f (max f k) s _ hp1 (le_max_left f k)
          unfold runLoop at hl
          split at hl
          · cases hl
          · rename_i s4 tr4 hp4
            have := loopPass_mono E k (max f k) s _ hp4 (le_max_right f k)
            rw [hmono] at this
            simp at this
          · rename_i s4 tr4 hp4
            have := loopPass_mono E k (max f k) s _ hp4 (le_max_right f k)
            rw [hmono] at this
            simp only [Except.ok.injEq, Prod.mk.injEq, true_and] at this
            obtain ⟨rfl, rfl⟩ := this
            split at hl
            · cases hl
            · rename_i s5 tr5 hl5
              simp only [Except.ok.injEq, Prod.mk.injEq] at hl
              obtain ⟨rfl, rfl⟩ := hl
              obtain ⟨tr2, h1, h2⟩ := ih _ _ _ _ _ _ hrec hl5
              exact ⟨tr2, runLoop_mono E k (k + 1) _ _ h1 (Nat.le_succ k),
                by rw [h2]; simp⟩

/-! ### A pass that finds no thread -/

theorem gcPhase_collections {X : Type} (E : Env X) (s : VM X) :
    ((gcPhase E s).2.filter Event.isCollection).length =
      if (E.isGCRequired s).1 then 1 else 0 := by
  unfold gcPhase
  by_cases h : (E.isGCRequired s).1 = true <;> simp [h, Event.isCollection]

theorem filter_collection_of_alarmEvents (tr : List Event)
    (h : ∀ e ∈ tr, e.isAlarmEvent = true) : tr.filter Event.isCollection = [] := by
  rw [List.filter_eq_nil_iff]
  intro e he
  have := h e he
  cases e <;> simp_all [Event.isAlarmEvent, Event.isCollection]

theorem filter_collection_of_selectEvents (tr : List Event)
    (h : ∀ e ∈ tr, e.isSelectEvent = true) : tr.filter Event.isCollection = [] := by
  rw [List.filter_eq_nil_iff]
  intro e he
  have := h e he
  cases e <;> simp_all [Event.isSelectEvent, Event.isCollection]

theorem loopCondition_no_collection {X : Type} (E : Env X) (s : VM X) :
    (loopCondition E s).2.2.filter Event.isCollection = [] := by
  unfold loopCondition
  split
  · rfl
  · split <;> simp [Event.isCollection]

/-- Counterexample to C6: the pool is empty and exit is not requested, but an
alarm is due whose wake-up readies thread 7; `run()` then runs thread 7 (and
makes two passes) before it returns. -/
theorem idle_pool_runs_woken_thread :
    sleeperMachine.ext.pool = [] ∧ sleeperMachine.exitRunRequested = false ∧
    ∃ sF, run wakeEnv 4 sleeperMachine =
        Except.ok (-1, sF,
          [Event.isGCRequired false,
           Event.install 0 true, Event.wakeUp ⟨5, 7⟩, Event.removeFront ⟨5, 7⟩,
           Event.popNext (some 7), Event.isTerminated 7 false,
           Event.install 1 true, Event.assertRunnable 7 true,
           Event.setCurrentThread (some 7), Event.clearPreemptRequested, Event.run 7,
           Event.setCurrentThread none, Event.isRunnable 7 false,
           Event.isGCRequired false, Event.popNext none,
           Event.install 0 true]) :=
  ⟨rfl, rfl, _, rfl⟩

/-- C6, amended. When the loop test lets the body run, the alarm drain of the
pass ends, and the pool then holds no thread that is not terminated, `run()`
returns after that single pass: at most one collection pass (one exactly when
a collection is required), one alarm drain, then every thread of the pool is
popped and discarded, the pool is left empty, nothing is done with any thread
(no `run()`, no `kill()`, no `schedule()`), and the loop is left. -/
theorem no_runnable_thread_returns {X : Type} (E : Env X) (pool : VM X → List Thread)
    (term : VM X → Thread → Bool) (hv : PoolView E pool term) (n : Nat) (s0 s2 : VM X)
    (tr2 : List Event)
    (hC : (loopCondition E s0).1 = true)
    (hA : alarmPhase E n (gcPhase E (loopCondition E s0).2.1).1 = Except.ok (s2, tr2))
    (hT : ∀ t ∈ pool s2, term s2 t = true)
    (fuel : Nat) (hf : n < fuel) (hf2 : (pool s2).length + 1 < fuel) :
    ∃ s3 tr,
      runLoop E fuel s0 = Except.ok (s3, tr) ∧
      pool s3 = [] ∧
      run E fuel s0 = Except.ok (nextWake (E.install E.topLevelSpace s3).2,
        (E.install E.topLevelSpace s3).2,
        tr ++ [Event.install E.topLevelSpace (E.install E.topLevelSpace s3).1]) ∧
      tr = (loopCondition E s0).2.2 ++ ((gcPhase E (loopCondition E s0).2.1).2 ++ tr2 ++
        (discardTrace (pool s2) ++ [Event.popNext none])) ∧
      tr.filter Event.isThreadEvent = [] ∧
      (∀ t, Event.run t ∉ tr) ∧
      (tr.filter Event.isCollection).length =
        (if (E.isGCRequired (loopCondition E s0).2.1).1 then 1 else 0) ∧
      (tr.filter Event.isCollection).length ≤ 1 := by
  obtain ⟨k, rfl⟩ : ∃ k, fuel = k + 1 := ⟨fuel - 1, by omega⟩
  have hA2 : alarmPhase E k (gcPhase E (loopCondition E s0).2.1).1 = Except.ok (s2, tr2) :=
    drainAlarms_mono E _ n k _ _ hA (by omega)
  obtain ⟨s3, hS, hp3, -⟩ := selectThread_poolView E pool term hv k s2 (by omega)
  have hdrop : (pool s2).dropWhile (term s2) = [] := by
    rw [List.dropWhile_eq_nil_iff]
    exact hT
  have htake : (pool s2).takeWhile (term s2) = pool s2 := by
    rw [List.takeWhile_eq_self_iff]
    exact hT
  rw [hdrop, htake] at hS
  rw [hdrop] at hp3
  simp only [List.head?_nil, selectTail] at hS
  simp only [List.tail_nil] at hp3
  have hB := loopBody_of_phases_none E k _ s2 s3 tr2 _ hA2 hS
  obtain ⟨tr, htr⟩ : ∃ tr, tr = (loopCondition E s0).2.2 ++
      ((gcPhase E (loopCondition E s0).2.1).2 ++ tr2 ++
        (discardTrace (pool s2) ++ [Event.popNext none])) := ⟨_, rfl⟩
  have hP : loopPass E k s0 = Except.ok (false, s3, tr) := by
    unfold loopPass
    simp only [hC, if_true, hB, htr]
  have hL : runLoop E (k + 1) s0 = Except.ok (s3, tr) := by
    simp only [runLoop, hP]
  have hsel := selectThread_selectEvents E k s2 s3 none _ hS
  have hal := drainAlarms_alarmEvents E _ _ _ _ _ hA2
  have hF : tr.filter Event.isThreadEvent = [] := by
    rw [htr, List.filter_append, List.filter_append, List.filter_append,
      loopCondition_no_threadEvent, gcPhase_no_threadEvent,
      filter_threadEvent_of_alarmEvents tr2 hal,
      filter_threadEvent_of_selectEvents _ hsel]
    rfl
  have hG : (tr.filter Event.isCollection).length =
      (if (E.isGCRequired (loopCondition E s0).2.1).1 then 1 else 0) := by
    rw [htr, List.filter_append, List.filter_append, List.filter_append,
      loopCondition_no_collection, filter_collection_of_alarmEvents tr2 hal,
      filter_collection_of_selectEvents _ hsel]
    simp only [List.nil_append, List.append_nil]
    exact gcPhase_collections E _
  refine ⟨s3, tr, hL, hp3, ?_, htr, hF, ?_, hG, ?_⟩
  · unfold run
    simp only [hL]
  · intro t
    exact not_mem_of_filter_threadEvent_nil tr hF _ rfl
  · rw [hG]
    split <;> omega

/-- Witness for C6, amended: no alarm, a collection required, and a pool
holding the terminated threads 1 and 2: one collection pass, both threads
popped and discarded, and `run()` returns `-1`. -/
theorem no_runnable_thread_returns_witness :
    (∃ sF, run plainEnv 4 idleMachine =
        Except.ok (-1, sF,
          [Event.isGCRequired true, Event.install 0 true, Event.doGC none,
           Event.popNext (some 1), Event.isTerminated 1 true,
           Event.popNext (some 2), Event.isTerminated 2 true,
           Event.popNext none, Event.install 0 true])) ∧
    ∃ s3 tr,
      runLoop plainEnv 4 idleMachine = Except.ok (s3, tr) ∧
      s3.ext.pool = [] ∧
      run plainEnv 4 idleMachine = Except.ok (nextWake (plainEnv.install plainEnv.topLevelSpace s3).2,
        (plainEnv.install plainEnv.topLevelSpace s3).2,
        tr ++ [Event.install plainEnv.topLevelSpace
          (plainEnv.install plainEnv.topLevelSpace s3).1]) ∧
      tr = (loopCondition plainEnv idleMachine).2.2 ++
        ((gcPhase plainEnv (loopCondition plainEnv idleMachine).2.1).2 ++ [] ++
          (discardTrace [1, 2] ++ [Event.popNext none])) ∧
      tr.filter Event.isThreadEvent = [] ∧
      (∀ t, Event.run t ∉ tr) ∧
      (tr.filter Event.isCollection).length =
        (if (plainEnv.isGCRequired (loopCondition plainEnv idleMachine).2.1).1 then 1 else 0) ∧
      (tr.filter Event.isCollection).length ≤ 1 :=
  ⟨⟨_, rfl⟩, no_runnable_thread_returns plainEnv (fun s => s.ext.pool)
    (fun s t => decide (t ∈ s.ext.terminated))
    (worldEnv_poolView (fun _ => Quantum.stay) (fun _ => 1)) 1 idleMachine
    (gcPhase plainEnv idleMachine).1 [] rfl rfl (by decide) 4 (by decide) (by decide)⟩

/-! ### Leaving the loop -/

/-- C7. Whenever `run()` returns, whichever way the loop ended, the last thing
done is the install of the top-level space: it is the last event of the run,
hence the last install, and the machine returned is the one that install
leaves. -/
theorem run_restores_top_level {X : Type} (E : Env X) (fuel : Nat) (s s2 : VM X) (r : Int)
    (tr : List Event) (h : run E fuel s = Except.ok (r, s2, tr)) :
    ∃ s1 tr1,
      runLoop E fuel s = Except.ok (s1, tr1) ∧
      s2 = (E.install E.topLevelSpace s1).2 ∧
      tr = tr1 ++ [Event.install E.topLevelSpace (E.install E.topLevelSpace s1).1] ∧
      tr.getLast? = some (Event.install E.topLevelSpace (E.install E.topLevelSpace s1).1) ∧
      (tr.filter Event.isInstall).getLast? =
        some (Event.install E.topLevelSpace (E.install E.topLevelSpace s1).1) := by
  obtain ⟨s1, tr1, hl, hs, -, ht⟩ := run_eq_ok h
  refine ⟨s1, tr1, hl, hs, ht, ?_, ?_⟩
  · rw [ht]
    simp
  · rw [ht, List.filter_append]
    simp [Event.isInstall]

/-- Witness for C7: thread 3, of space 1, is run and terminates, the next pass
finds no thread, and `run()` returns with the top-level space (space 0)
ambient; likewise when the loop ends by an exit request or by the dynamic
preemption test. -/
theorem run_restores_top_level_witness :
    (∃ sF, run wakeEnv 4 (World.machine 0 [] [3]) =
        Except.ok (-1, sF,
          [Event.isGCRequired false, Event.popNext (some 3), Event.isTerminated 3 false,
           Event.install 1 true, Event.assertRunnable 3 true,
           Event.setCurrentThread (some 3), Event.clearPreemptRequested, Event.run 3,
           Event.setCurrentThread none, Event.isRunnable 3 false,
           Event.isGCRequired false, Event.popNext none,
           Event.install 0 true]) ∧ sF.ext.ambient = some 0) ∧
    (∃ sF, run plainEnv 1 exitRequestedMachine = Except.ok (2, sF, [Event.install 0 true]) ∧
      sF.ext.ambient = some 0) ∧
    (∃ sF, run plainEnv 1 preemptedMachine =
        Except.ok (-1, sF, [Event.testDynamicExitRun true, Event.install 0 true]) ∧
      preemptedMachine.ext.ambient = some 1 ∧ sF.ext.ambient = some 0) ∧
    ∃ s1 tr1 sF tr,
      runLoop wakeEnv 4 (World.machine 0 [] [3]) = Except.ok (s1, tr1) ∧
      sF = (wakeEnv.install wakeEnv.topLevelSpace s1).2 ∧
      tr = tr1 ++ [Event.install wakeEnv.topLevelSpace
        (wakeEnv.install wakeEnv.topLevelSpace s1).1] ∧
      tr.getLast? = some (Event.install wakeEnv.topLevelSpace
        (wakeEnv.install wakeEnv.topLevelSpace s1).1) ∧
      (tr.filter Event.isInstall).getLast? =
        some (Event.install wakeEnv.topLevelSpace
          (wakeEnv.install wakeEnv.topLevelSpace s1).1) :=
  ⟨⟨_, rfl, rfl⟩, ⟨_, rfl, rfl⟩, ⟨_, rfl, rfl, rfl⟩,
    (run_restores_top_level wakeEnv 4 (World.machine 0 [] [3]) _ (-1) _ rfl).elim
      (fun s1 h1 => h1.elim (fun tr1 h2 => ⟨s1, tr1, _, _, h2⟩))⟩

/-! ### The end-to-end scenario -/

theorem scenario_first_pass (k : Nat) :
    loopPass scenarioEnv (k + 1) scenarioMachine =
      Except.ok (true, scenarioSteady, quantumTrace 1 false) :=
  loopPass_mono scenarioEnv 1 (k + 1) scenarioMachine _ rfl (Nat.le_add_left 1 k)

theorem scenario_steady_pass (k : Nat) :
    loopPass scenarioEnv (k + 1) scenarioSteady =
      Except.ok (true, scenarioSteady, quantumTrace 2 true) :=
  loopPass_mono scenarioEnv 1 (k + 1) scenarioSteady _ rfl (Nat.le_add_left 1 k)

theorem scenario_steady_passes (k : Nat) :
    ∀ n, passes scenarioEnv (k + 1) n scenarioSteady =
      Except.ok (true, scenarioSteady, List.replicate n (quantumTrace 2 true)) := by
  intro n
  induction n with
  | zero => rfl
  | succ n ih =>
    simp only [passes, scenario_steady_pass, ih, List.replicate_succ]

theorem scenario_steady_runLoop :
    ∀ fuel, runLoop scenarioEnv fuel scenarioSteady = Except.error Fault.outOfFuel := by
  intro fuel
  induction fuel with
  | zero => rfl
  | succ k ih =>
    cases k with
    | zero => rfl
    | succ j => rw [runLoop_succ scenarioEnv (j + 1) _ _ _ (scenario_steady_pass j), ih]

/-- C8. The end-to-end scenario: pool `[T1, T2]`, both threads ready and in
space `S1` which always installs, no alarm, no collection required, `T1`
terminating when run and `T2` staying ready. The first pass runs `T1` and does
not schedule it, leaving the pool `[T2]`; the second runs `T2` and schedules
it, the pool being `[T2]` again; every later pass does the same as the second.
For every `n` the loop is still going on after `n` passes, and `run()` never
returns. -/
theorem scenario_never_exits (k : Nat) :
    (∀ n, passes scenarioEnv (k + 1) n scenarioMachine =
      Except.ok (true, (if n = 0 then scenarioMachine else scenarioSteady),
        (quantumTrace 1 false :: List.replicate n (quantumTrace 2 true)).take n)) ∧
    scenarioMachine.ext.pool = [1, 2] ∧ scenarioSteady.ext.pool = [2] ∧
    threadsRun (quantumTrace 1 false) = [1] ∧ Event.schedule 1 ∉ quantumTrace 1 false ∧
    threadsRun (quantumTrace 2 true) = [2] ∧
    (quantumTrace 2 true).count (Event.schedule 2) = 1 ∧
    (∀ fuel, run scenarioEnv fuel scenarioMachine = Except.error Fault.outOfFuel) := by
  refine ⟨?_, rfl, rfl, rfl, by decide, rfl, by decide, ?_⟩
  · intro n
    cases n with
    | zero => rfl
    | succ n =>
      simp only [passes, scenario_first_pass, scenario_steady_passes]
      simp
  · intro fuel
    have hl : runLoop scenarioEnv fuel scenarioMachine = Except.error Fault.outOfFuel := by
      cases fuel with
      | zero => rfl
      | succ k =>
        cases k with
        | zero => rfl
        | succ j =>
          rw [runLoop_succ scenarioEnv (j + 1) _ _ _ (scenario_first_pass j),
            scenario_steady_runLoop]
    unfold run
    rw [hl]

/-! ### The current thread and the collector -/

theorem loopCondition_current {X : Type} (E : Env X) (hfr : CurrentThreadFrame E) (s : VM X) :
    (loopCondition E s).2.1.currentThread = s.currentThread := by
  unfold loopCondition
  split
  · rfl
  · split
    · exact hfr.testDynamicExitRun s
    · rfl

theorem gcPhase_current {X : Type} (E : Env X) (hfr : CurrentThreadFrame E) (s : VM X) :
    (gcPhase E s).1.currentThread = s.currentThread := by
  unfold gcPhase
  simp only
  split
  · rw [hfr.doGC, hfr.install, hfr.isGCRequired]
  · exact hfr.isGCRequired s

theorem gcPhase_trace {X : Type} (E : Env X) (hfr : CurrentThreadFrame E) (s : VM X) :
    ((E.isGCRequired s).1 = true →
      (gcPhase E s).2 = [Event.isGCRequired true,
        Event.install E.topLevelSpace (E.install E.topLevelSpace (E.isGCRequired s).2).1,
        Event.doGC s.currentThread]) ∧
    ((E.isGCRequired s).1 = false → (gcPhase E s).2 = [Event.isGCRequired false]) := by
  unfold gcPhase
  constructor
  · intro h
    simp only [h, if_true]
    rw [hfr.install, hfr.isGCRequired]
  · intro h
    simp [h]

theorem drainAlarms_current {X : Type} (E : Env X) (hfr : CurrentThreadFrame E) (now : Int) :
    ∀ (fuel : Nat) (s s2 : VM X) (tr : List Event),
      drainAlarms E now fuel s = Except.ok (s2, tr) → s2.currentThread = s.currentThread := by
  intro fuel
  induction fuel with
  | zero => intro s s2 tr h; simp [drainAlarms] at h
  | succ n ih =>
    intro s s2 tr h
    unfold drainAlarms at h
    split at h
    · simp only [Except.ok.injEq, Prod.mk.injEq] at h
      rw [← h.1]
    · split at h
      · simp only at h
        split at h
        · cases h
        · split at h
          · cases h
          · split at h
            · cases h
            · rename_i s3 tr3 hrec
              simp only [Except.ok.injEq, Prod.mk.injEq] at h
              rw [← h.1, ih _ _ _ hrec]
              simp only
              rw [hfr.wakeUp, hfr.install]
      · simp only [Except.ok.injEq, Prod.mk.injEq] at h
        rw [← h.1]

theorem selectThread_current {X : Type} (E : Env X) (hfr : CurrentThreadFrame E) :
    ∀ (fuel : Nat) (s s2 : VM X) (c : Option Thread) (tr : List Event),
      selectThread E fuel s = Except.ok (c, s2, tr) → s2.currentThread = s.currentThread := by
  intro fuel
  induction fuel with
  | zero => intro s s2 c tr h; simp [selectThread] at h
  | succ n ih =>
    intro s s2 c tr h
    unfold selectThread at h
    split at h
    · simp only [Except.ok.injEq, Prod.mk.injEq] at h
      rw [← h.2.1, hfr.popNext]
    · simp only at h
      split at h
      · split at h
        · cases h
        · rename_i c2 s3 tr3 hrec
          simp only [Except.ok.injEq, Prod.mk.injEq] at h
          rw [← h.2.1, ih _ _ _ _ hrec, hfr.isTerminated, hfr.popNext]
      · simp only [Except.ok.injEq, Prod.mk.injEq] at h
        rw [← h.2.1, hfr.isTerminated, hfr.popNext]

theorem runQuantum_current {X : Type} (E : Env X) (hfr : CurrentThreadFrame E) (t : Thread)
    (s : VM X) : (runQuantum E t s).1.currentThread = none := by
  rw [runQuantum_state]
  split
  · rw [hfr.schedule, hfr.isRunnable]; rfl
  · rw [hfr.isRunnable]; rfl

theorem runThread_current {X : Type} (E : Env X) (hfr : CurrentThreadFrame E) (t : Thread)
    (s s2 : VM X) (c : Control) (tr : List Event) (hcur : s.currentThread = none)
    (h : runThread E t s = Except.ok (c, s2, tr)) : s2.currentThread = none := by
  obtain ⟨-, ⟨-, rfl, -⟩ | ⟨-, chk, s1, -, rfl, -⟩⟩ := runThread_ok E t s s2 c tr h
  · rw [hfr.kill, hfr.install, hcur]
  · exact runQuantum_current E hfr t s1

theorem runThread_events {X : Type} (E : Env X) (t : Thread) (s s2 : VM X) (c : Control)
    (tr : List Event) (h : runThread E t s = Except.ok (c, s2, tr)) :
    ∀ e ∈ tr, (e.isInstall || e.isThreadEvent) = true := by
  obtain ⟨-, ⟨-, -, rfl⟩ | ⟨-, chk, s1, hchk, -, rfl⟩⟩ := runThread_ok E t s s2 c tr h
  · intro e he
    simp only [List.mem_cons, List.mem_singleton, List.not_mem_nil, or_false] at he
    rcases he with rfl | rfl <;> rfl
  · intro e he
    rw [runQuantum_trace] at he
    rcases hchk with rfl | rfl <;>
      by_cases hq : (E.isRunnable t (afterQuantum E t s1)).1 = true <;>
      simp [hq] at he <;>
      (rcases he with rfl | rfl | rfl | rfl | rfl | rfl | rfl | rfl) <;> rfl

theorem loopBody_current {X : Type} (E : Env X) (hfr : CurrentThreadFrame E) (fuel : Nat)
    (s s4 : VM X) (c : Control) (tr : List Event) (hcur : s.currentThread = none)
    (h : loopBody E fuel s = Except.ok (c, s4, tr)) : s4.currentThread = none := by
  obtain ⟨s2, tr2, s3, tr3, sel, hA, hS, hcase⟩ := loopBody_ok E fuel s s4 c tr h
  have h2 : s2.currentThread = none := by
    rw [drainAlarms_current E hfr _ _ _ _ _ hA, gcPhase_current E hfr, hcur]
  have h3 : s3.currentThread = none := by
    rw [selectThread_current E hfr _ _ _ _ _ hS, h2]
  rcases hcase with ⟨-, -, rfl, -⟩ | ⟨t, tr4, -, hR, -⟩
  · exact h3
  · exact runThread_current E hfr t s3 s4 c tr4 h3 hR

theorem loopPass_current {X : Type} (E : Env X) (hfr : CurrentThreadFrame E) (fuel : Nat)
    (s s2 : VM X) (b : Bool) (tr : List Event) (hcur : s.currentThread = none)
    (h : loopPass E fuel s = Except.ok (b, s2, tr)) : s2.currentThread = none := by
  have hc := loopCondition_current E hfr s
  unfold loopPass at h
  simp only at h
  split at h
  · split at h
    · cases h
    · rename_i s3 tr3 hb
      simp only [Except.ok.injEq, Prod.mk.injEq] at h
      rw [← h.2.1]
      exact loopBody_current E hfr fuel _ _ _ _ (hc.trans hcur) hb
    · rename_i s3 tr3 hb
      simp only [Except.ok.injEq, Prod.mk.injEq] at h
      rw [← h.2.1]
      exact loopBody_current E hfr fuel _ _ _ _ (hc.trans hcur) hb
  · simp only [Except.ok.injEq, Prod.mk.injEq] at h
    rw [← h.2.1]
    exact hc.trans hcur

theorem passes_current {X : Type} (E : Env X) (hfr : CurrentThreadFrame E) (fuel : Nat) :
    ∀ (n : Nat) (s s2 : VM X) (b : Bool) (trs : List (List Event)),
      s.currentThread = none → passes E fuel n s = Except.ok (b, s2, trs) →
        s2.currentThread = none := by
  intro n
  induction n with
  | zero =>
    intro s s2 b trs hcur h
    simp only [passes, Except.ok.injEq, Prod.mk.injEq] at h
    rw [← h.2.1]; exact hcur
  | succ n ih =>
    intro s s2 b trs hcur h
    unfold passes at h
    split at h
    · cases h
    · rename_i s1 tr hp
      simp only [Except.ok.injEq, Prod.mk.injEq] at h
      rw [← h.2.1]
      exact loopPass_current E hfr fuel s s1 false tr hcur hp
    · rename_i s1 tr hp
      split at h
      · cases h
      · rename_i b2 s3 trs3 hrec
        simp only [Except.ok.injEq, Prod.mk.injEq] at h
        rw [← h.2.1]
        exact ih s1 s3 b2 trs3 (loopPass_current E hfr fuel s s1 true tr hcur hp) hrec

theorem worldEnv_currentThreadFrame (prog : Thread → Quantum) (spaceOf : Thread → Space) :
    CurrentThreadFrame (World.env prog spaceOf) where
  testDynamicExitRun := by intro s; rfl
  isGCRequired := by intro s; rfl
  doGC := by intro s; rfl
  install := by
    intro sp s
    simp only [World.env]
    split <;> rfl
  wakeUp := by intro n s; rfl
  popNext := by
    intro s
    simp only [World.env]
    split <;> rfl
  isTerminated := by intro t s; rfl
  kill := by intro t s; rfl
  isRunnable := by intro t s; rfl
  schedule := by intro t s; rfl

/-- C10. Any pass of the loop, the machine having entered `run()` with
`_currentThread` null and no call other than the `run()` of a thread writing
that field: the trace of the body is the collection phase, then the alarm
phase, then the selection, then the treatment of the selected thread. The
collection phase is the call of `isGCRequired()`, followed, exactly when it
returned true, by the install of the top-level space and then one `doGC()`;
there is no other `doGC()` in the pass, so every wake-up and every pop comes
after it, and `_currentThread` is null when it is called. -/
theorem gc_before_alarms_before_selection {X : Type} (E : Env X)
    (hfr : CurrentThreadFrame E) (fuel n : Nat) (s0 s s4 : VM X) (trs : List (List Event))
    (c : Control) (tr : List Event)
    (hentry : s0.currentThread = none)
    (hreach : passes E fuel n s0 = Except.ok (true, s, trs))
    (hB : loopBody E fuel (loopCondition E s).2.1 = Except.ok (c, s4, tr)) :
    ∃ gc trA trS trT,
      tr = gc ++ trA ++ trS ++ trT ∧
      ((E.isGCRequired (loopCondition E s).2.1).1 = true →
        ∃ ok, gc = [Event.isGCRequired true, Event.install E.topLevelSpace ok,
          Event.doGC none]) ∧
      ((E.isGCRequired (loopCondition E s).2.1).1 = false →
        gc = [Event.isGCRequired false]) ∧
      (∀ e ∈ trA, e.isAlarmEvent = true) ∧
      (∀ e ∈ trS, e.isSelectEvent = true) ∧
      (∀ e ∈ trT, (e.isInstall || e.isThreadEvent) = true) ∧
      tr.filter Event.isCollection =
        (if (E.isGCRequired (loopCondition E s).2.1).1 then [Event.doGC none] else []) ∧
      (∀ cur, Event.doGC cur ∈ tr → cur = none) := by
  have hs : s.currentThread = none := passes_current E hfr fuel n s0 s true trs hentry hreach
  have hsI : (loopCondition E s).2.1.currentThread = none :=
    (loopCondition_current E hfr s).trans hs
  obtain ⟨s2, tr2, s3, tr3, sel, hA, hS, hcase⟩ := loopBody_ok E fuel _ s4 c tr hB
  obtain ⟨g1, g2⟩ := gcPhase_trace E hfr (loopCondition E s).2.1
  rw [hsI] at g1
  have hal := drainAlarms_alarmEvents E _ _ _ _ _ hA
  have hsel := selectThread_selectEvents E fuel s2 s3 sel tr3 hS
  obtain ⟨trT, htr, hT⟩ : ∃ trT, tr = (gcPhase E (loopCondition E s).2.1).2 ++ tr2 ++ tr3 ++ trT ∧
      ∀ e ∈ trT, (e.isInstall || e.isThreadEvent) = true := by
    rcases hcase with ⟨-, -, -, rfl⟩ | ⟨t, tr4, -, hR, rfl⟩
    · exact ⟨[], by simp, by simp⟩
    · exact ⟨tr4, rfl, runThread_events E t s3 s4 c tr4 hR⟩
  have hTc : trT.filter Event.isCollection = [] := by
    rw [List.filter_eq_nil_iff]
    intro e he
    have := hT e he
    cases e <;> simp_all [Event.isInstall, Event.isThreadEvent, Event.isCollection]
  have hF : tr.filter Event.isCollection =
      (if (E.isGCRequired (loopCondition E s).2.1).1 then [Event.doGC none] else []) := by
    rw [htr, List.filter_append, List.filter_append, List.filter_append,
      filter_collection_of_alarmEvents tr2 hal, filter_collection_of_selectEvents tr3 hsel, hTc]
    by_cases hq : (E.isGCRequired (loopCondition E s).2.1).1 = true
    · rw [g1 hq]
      simp [hq, Event.isCollection]
    · have hq2 : (E.isGCRequired (loopCondition E s).2.1).1 = false := by simpa using hq
      rw [g2 hq2]
      simp [hq2, Event.isCollection]
  refine ⟨_, tr2, tr3, trT, htr, ?_, g2, hal, hsel, hT, hF, ?_⟩
  · intro hq
    exact ⟨_, g1 hq⟩
  · intro cur hmem
    have hm := (mem_iff_of_filter_eq tr hF (Event.doGC cur) rfl).1 hmem
    by_cases hq : (E.isGCRequired (loopCondition E s).2.1).1 = true
    · simp [hq] at hm
      exact hm
    · simp [hq] at hm

/-- Witness for C10: a pass with a collection required, an alarm due and a
terminated thread ahead of a ready one in the pool. -/
theorem gc_before_alarms_before_selection_witness :
    (∃ s4, loopBody plainEnv 3 busyMachine =
        Except.ok (Control.next, s4,
          [Event.isGCRequired true, Event.install 0 true, Event.doGC none,
           Event.install 0 true, Event.wakeUp ⟨5, 7⟩, Event.removeFront ⟨5, 7⟩,
           Event.popNext (some 1), Event.isTerminated 1 true,
           Event.popNext (some 2), Event.isTerminated 2 false,
           Event.install 1 true, Event.assertRunnable 2 true,
           Event.setCurrentThread (some 2), Event.clearPreemptRequested, Event.run 2,
           Event.setCurrentThread none, Event.isRunnable 2 true, Event.schedule 2])) ∧
    ∃ tr gc trA trS trT,
      (∃ s4, loopBody plainEnv 3 (loopCondition plainEnv busyMachine).2.1 =
        Except.ok (Control.next, s4, tr)) ∧
      tr = gc ++ trA ++ trS ++ trT ∧
      ((plainEnv.isGCRequired (loopCondition plainEnv busyMachine).2.1).1 = true →
        ∃ ok, gc = [Event.isGCRequired true, Event.install plainEnv.topLevelSpace ok,
          Event.doGC none]) ∧
      ((plainEnv.isGCRequired (loopCondition plainEnv busyMachine).2.1).1 = false →
        gc = [Event.isGCRequired false]) ∧
      (∀ e ∈ trA, e.isAlarmEvent = true) ∧
      (∀ e ∈ trS, e.isSelectEvent = true) ∧
      (∀ e ∈ trT, (e.isInstall || e.isThreadEvent) = true) ∧
      tr.filter Event.isCollection =
        (if (plainEnv.isGCRequired (loopCondition plainEnv busyMachine).2.1).1
          then [Event.doGC none] else []) ∧
      (∀ cur, Event.doGC cur ∈ tr → cur = none) :=
  ⟨⟨_, rfl⟩,
    (gc_before_alarms_before_selection plainEnv
      (worldEnv_currentThreadFrame (fun _ => Quantum.stay) (fun _ => 1)) 3 0 busyMachine
      busyMachine _ [] Control.next _ rfl rfl rfl).elim
      (fun gc h => ⟨_, gc, h.elim (fun trA h2 => ⟨trA, h2.elim (fun trS h3 =>
        ⟨trS, h3.elim (fun trT h4 => ⟨trT, ⟨_, rfl⟩, h4⟩)⟩)⟩)⟩)⟩

/-! ### Round robin -/

theorem threadsRun_append (a b : List Event) :
    threadsRun (a ++ b) = threadsRun a ++ threadsRun b := by
  simp [threadsRun, List.filterMap_append]

theorem roundRobin_loopCondition {X : Type} (E : Env X) (pool : VM X → List Thread)
    (Inv : VM X → Prop) (hw : RoundRobin E pool Inv) (s : VM X) (hI : Inv s) :
    (loopCondition E s).1 = true ∧ Inv (loopCondition E s).2.1 ∧
      pool (loopCondition E s).2.1 = pool s ∧ threadsRun (loopCondition E s).2.2 = [] := by
  have he := hw.exitRunRequested s hI
  obtain ⟨h1, h2, h3⟩ := hw.testDynamicExitRun s hI
  unfold loopCondition
  by_cases hd : s.envUseDynamicPreemption = true
  · simp [he, hd, h1, h2, h3, threadsRun, Event.ran]
  · simp [he, hd, hI, threadsRun]

theorem roundRobin_loopBody {X : Type} (E : Env X) (pool : VM X → List Thread)
    (Inv : VM X → Prop) (hw : RoundRobin E pool Inv) (k : Nat) (s : VM X) (t : Thread)
    (rest : List Thread) (hI : Inv s) (hp : pool s = t :: rest) :
    ∃ s4 tr, loopBody E (k + 1) s = Except.ok (Control.next, s4, tr) ∧ Inv s4 ∧
      pool s4 = rest ++ [t] ∧ threadsRun tr = [t] := by
  obtain ⟨g1, g2, g3⟩ := hw.isGCRequired s hI
  have hg : gcPhase E s = ((E.isGCRequired s).2, [Event.isGCRequired false]) := by
    unfold gcPhase
    simp [g1]
  have hA : alarmPhase E (k + 1) (gcPhase E s).1 = Except.ok ((E.isGCRequired s).2, []) := by
    rw [hg]
    unfold alarmPhase drainAlarms
    simp only [hw.alarms _ g2]
  obtain ⟨p1, p2, p3⟩ := hw.popNext _ t rest g2 (g3.trans hp)
  obtain ⟨t1, t2, t3⟩ := hw.isTerminated _ t p2
  have hS : selectThread E (k + 1) (E.isGCRequired s).2 =
      Except.ok (some t, (E.isTerminated t (E.popNext (E.isGCRequired s).2).2).2,
        [Event.popNext (some t), Event.isTerminated t false]) := by
    unfold selectThread
    simp [p1, t1]
  obtain ⟨s3, hs3⟩ : ∃ s3, s3 = (E.isTerminated t (E.popNext (E.isGCRequired s).2).2).2 :=
    ⟨_, rfl⟩
  rw [← hs3] at hS t2 t3
  obtain ⟨i1, i2, i3⟩ := hw.install s3 t t2
  obtain ⟨a1, a2, a3⟩ := hw.isRunnable _ t i2
  obtain ⟨sA, hsA, hA1, hA2, hA3⟩ : ∃ sA, sA = (assertRunnable E t (E.install (E.getSpace t s3) s3).2)
      ∧ sA.1 = true ∧ Inv sA.2.1 ∧ pool sA.2.1 = pool (E.install (E.getSpace t s3) s3).2 := by
    refine ⟨_, rfl, ?_⟩
    unfold assertRunnable
    by_cases ha : E.assertsEnabled = true
    · simp [ha, a1, a2, a3]
    · simp [ha, i2]
  obtain ⟨r1, r2⟩ := hw.run sA.2.1 t hA2
  obtain ⟨q1, q2, q3⟩ := hw.isRunnable _ t r1
  obtain ⟨c1, c2⟩ := hw.schedule _ t q2
  have hQs : (runQuantum E t sA.2.1).1 = E.schedule t (E.isRunnable t (afterQuantum E t sA.2.1)).2 := by
    rw [runQuantum_state, if_pos q1]
  have hQt : threadsRun (runQuantum E t sA.2.1).2 = [t] := by
    rw [runQuantum_trace, if_pos q1]
    rfl
  have hAt : threadsRun sA.2.2 = [] := by
    rcases assertRunnable_trace E t (E.install (E.getSpace t s3) s3).2 (hsA ▸ hA1) with h | h
    · rw [hsA, h]; rfl
    · rw [hsA, h]; rfl
  have hR : runThread E t s3 = Except.ok (Control.next, (runQuantum E t sA.2.1).1,
      Event.install (E.getSpace t s3) true :: (sA.2.2 ++ (runQuantum E t sA.2.1).2)) := by
    unfold runThread
    simp only [i1, if_true, ← hsA, hA1]
  have hB := loopBody_of_phases E (k + 1) s _ s3 [] _ t hA hS
  rw [hR] at hB
  refine ⟨_, _, hB, ?_, ?_, ?_⟩
  · rw [hQs]; exact c1
  · rw [hQs, c2, q3, r2, hA3, i3, t3, p3]
  · rw [hg]
    simp only [List.append_nil, threadsRun_append]
    rw [show (Event.install (E.getSpace t s3) true :: (sA.2.2 ++ (runQuantum E t sA.2.1).2)) =
      [Event.install (E.getSpace t s3) true] ++ (sA.2.2 ++ (runQuantum E t sA.2.1).2) from rfl,
      threadsRun_append, threadsRun_append, hQt, hAt]
    rfl

theorem roundRobin_loopPass {X : Type} (E : Env X) (pool : VM X → List Thread)
    (Inv : VM X → Prop) (hw : RoundRobin E pool Inv) (k : Nat) (s : VM X) (t : Thread)
    (rest : List Thread) (hI : Inv s) (hp : pool s = t :: rest) :
    ∃ s4 tr, loopPass E (k + 1) s = Except.ok (true, s4, tr) ∧ Inv s4 ∧
      pool s4 = rest ++ [t] ∧ threadsRun tr = [t] := by
  obtain ⟨c1, c2, c3, c4⟩ := roundRobin_loopCondition E pool Inv hw s hI
  obtain ⟨s4, tr, hB, h1, h2, h3⟩ :=
    roundRobin_loopBody E pool Inv hw k _ t rest c2 (c3.trans hp)
  refine ⟨s4, (loopCondition E s).2.2 ++ tr, ?_, h1, h2, ?_⟩
  · unfold loopPass
    simp only [c1, if_true, hB]
  · rw [threadsRun_append, c4, h3]
    rfl

theorem roundRobin_passes {X : Type} (E : Env X) (pool : VM X → List Thread)
    (Inv : VM X → Prop) (hw : RoundRobin E pool Inv) (k : Nat) :
    ∀ (n : Nat) (s : VM X), Inv s → pool s ≠ [] →
      ∃ s2 trs, passes E (k + 1) n s = Except.ok (true, s2, trs) ∧ Inv s2 ∧
        pool s2 = (pool s).rotate n ∧
        ∀ i, i < n → ∃ tr t, trs[i]? = some tr ∧ ((pool s).rotate i).head? = some t ∧
          threadsRun tr = [t] := by
  intro n
  induction n with
  | zero =>
    intro s hI _
    exact ⟨s, [], rfl, hI, by simp, by intro i hi; omega⟩
  | succ n ih =>
    intro s hI hne
    obtain ⟨t, rest, hp⟩ := List.exists_cons_of_ne_nil hne
    obtain ⟨s4, tr, hP, h1, h2, h3⟩ := roundRobin_loopPass E pool Inv hw k s t rest hI hp
    obtain ⟨s5, trs, hrec, r1, r2, r3⟩ := ih s4 h1 (by rw [h2]; simp)
    refine ⟨s5, tr :: trs, ?_, r1, ?_, ?_⟩
    · simp only [passes, hP, hrec]
    · rw [r2, h2, hp, List.rotate_cons_succ]
    · intro i hi
      cases i with
      | zero =>
        refine ⟨tr, t, by simp, ?_, h3⟩
        rw [hp]; simp
      | succ j =>
        obtain ⟨tr2, t2, e1, e2, e3⟩ := r3 j (by omega)
        refine ⟨tr2, t2, ?_, ?_, e3⟩
        · simpa using e1
        · rw [hp, List.rotate_cons_succ, ← h2]
          exact e2

theorem roundRobin_runsAt {X : Type} (E : Env X) (pool : VM X → List Thread)
    (Inv : VM X → Prop) (hw : RoundRobin E pool Inv) (k : Nat) (s0 : VM X) (h0 : Inv s0)
    (hne : pool s0 ≠ []) (n : Nat) (t : Thread)
    (ht : (pool s0)[n % (pool s0).length]? = some t) : runsAt E (k + 1) s0 n t := by
  obtain ⟨s2, trs, hP, -, -, h3⟩ := roundRobin_passes E pool Inv hw k (n + 1) s0 h0 hne
  obtain ⟨tr, t2, e1, e2, e3⟩ := h3 n (Nat.lt_succ_self n)
  have hpos : 0 < (pool s0).length := List.length_pos.2 hne
  rw [← List.rotate_mod, List.head?_rotate (Nat.mod_lt _ hpos), ht] at e2
  cases e2
  exact ⟨s2, trs, tr, hP, e1, e3⟩

theorem roundRobin_runLoop {X : Type} (E : Env X) (pool : VM X → List Thread)
    (Inv : VM X → Prop) (hw : RoundRobin E pool Inv) :
    ∀ (fuel : Nat) (s : VM X) (r : VM X × List Event), Inv s → pool s ≠ [] →
      runLoop E fuel s ≠ Except.ok r := by
  intro fuel
  induction fuel with
  | zero => intro s r _ _ h; simp [runLoop] at h
  | succ f ih =>
    intro s r hI hne h
    obtain ⟨t, rest, hp⟩ := List.exists_cons_of_ne_nil hne
    obtain ⟨s4, tr, hP, h1, h2, -⟩ := roundRobin_loopPass E pool Inv hw f s t rest hI hp
    unfold runLoop at h
    split at h
    · cases h
    · rename_i s1 tr1 hp1
      have := loopPass_mono E f (f + 1) s _ hp1 (Nat.le_succ f)
      rw [hP] at this
      simp at this
    · rename_i s1 tr1 hp1
      have := loopPass_mono E f (f + 1) s _ hp1 (Nat.le_succ f)
      rw [hP] at this
      simp only [Except.ok.injEq, Prod.mk.injEq, true_and] at this
      obtain ⟨rfl, -⟩ := this
      split at h
      · cases h
      · rename_i s2 tr2 hrec
        exact ih s4 _ h1 (by rw [h2]; simp) hrec

theorem worldEnv_roundRobin (spaceOf : Thread → Space) :
    RoundRobin (World.env (fun _ => Quantum.stay) spaceOf) (fun s => s.ext.pool)
      World.calm where
  exitRunRequested := by intro s h; exact h.1
  testDynamicExitRun := by
    intro s h
    exact ⟨h.2.2.2.2.2.2, h, rfl⟩
  isGCRequired := by
    intro s h
    exact ⟨h.2.2.2.2.2.1, h, rfl⟩
  alarms := by intro s h; exact h.2.1
  popNext := by
    intro s t rest h hp
    simp only [World.env, World.calm] at *
    simp [hp, h]
  isTerminated := by
    intro s t h
    simp only [World.env, World.calm] at *
    simp [h]
  install := by
    intro s t h
    simp only [World.env, World.calm] at *
    simp [h]
  isRunnable := by
    intro s t h
    simp only [World.env, World.calm] at *
    simp [h]
  run := by
    intro s t h
    simp only [World.env, World.calm, afterQuantum, VM.setCurrentThread,
      VM.clearPreemptRequested] at *
    simp [h]
  schedule := by
    intro s t h
    simp only [World.env, World.calm] at *
    simp [h]

/-- C9. Scheduler fairness. In a world of always runnable threads with a
first-in first-out pool, no alarm, no collection and no exit request, started
on a pool of `N ≥ 1` threads: pass number `n` of the loop runs the thread at
position `n mod N` of the initial pool, that thread only, and the loop goes
on. Hence every thread of the pool is run again after any number of passes,
the `N` passes from pass `j` on run, in order, the pool as it stands then (the
initial pool rotated `j` times, a permutation of it), and `run()` never
returns. -/
theorem round_robin_fair {X : Type} (E : Env X) (pool : VM X → List Thread)
    (Inv : VM X → Prop) (hw : RoundRobin E pool Inv) (k : Nat) (s0 : VM X) (h0 : Inv s0)
    (hne : pool s0 ≠ []) :
    (∀ n t, (pool s0)[n % (pool s0).length]? = some t → runsAt E (k + 1) s0 n t) ∧
    (∀ t ∈ pool s0, ∀ n, ∃ j, n ≤ j ∧ runsAt E (k + 1) s0 j t) ∧
    (∀ j i t, ((pool s0).rotate j)[i]? = some t → runsAt E (k + 1) s0 (j + i) t) ∧
    (∀ j, ((pool s0).rotate j).Perm (pool s0)) ∧
    (∀ fuel r, run E fuel s0 ≠ Except.ok r) := by
  have hpos : 0 < (pool s0).length := List.length_pos.2 hne
  have hmain := roundRobin_runsAt E pool Inv hw k s0 h0 hne
  refine ⟨hmain, ?_, ?_, fun j => List.rotate_perm _ j, ?_⟩
  · intro t ht n
    obtain ⟨m, hm, hget⟩ := List.getElem_of_mem ht
    refine ⟨n * (pool s0).length + m, ?_, hmain _ t ?_⟩
    · have : n ≤ n * (pool s0).length := Nat.le_mul_of_pos_right n hpos
      omega
    · rw [Nat.mul_add_mod_of_lt hm, List.getElem?_eq_getElem hm, hget]
  · intro j i t hi
    have hlt : i < (pool s0).length := by
      have := (List.getElem?_eq_some_iff.1 hi).1
      simpa using this
    rw [List.getElem?_rotate hlt] at hi
    apply hmain
    rw [Nat.add_comm j i]
    exact hi
  · intro fuel r h
    unfold run at h
    split at h
    · cases h
    · rename_i s1 tr hl
      exact roundRobin_runLoop E pool Inv hw fuel s0 _ h0 hne hl

/-- Witness for C9: three ready threads in the pool. -/
theorem round_robin_fair_witness :
    runsAt plainEnv 1 (World.machine 0 [] [1, 2, 3]) 4 2 ∧
    ((∀ n t, [1, 2, 3][n % 3]? = some t → runsAt plainEnv (0 + 1) (World.machine 0 [] [1, 2, 3]) n t) ∧
    (∀ t ∈ [1, 2, 3], ∀ n, ∃ j, n ≤ j ∧
      runsAt plainEnv (0 + 1) (World.machine 0 [] [1, 2, 3]) j t) ∧
    (∀ j i t, ([1, 2, 3].rotate j)[i]? = some t →
      runsAt plainEnv (0 + 1) (World.machine 0 [] [1, 2, 3]) (j + i) t) ∧
    (∀ j, ([1, 2, 3].rotate j).Perm [1, 2, 3]) ∧
    (∀ fuel r, run plainEnv fuel (World.machine 0 [] [1, 2, 3]) ≠ Except.ok r)) :=
  ⟨⟨_, _, _, rfl, rfl, rfl⟩,
    round_robin_fair plainEnv (fun s => s.ext.pool) World.calm (worldEnv_roundRobin (fun _ => 1))
      0 (World.machine 0 [] [1, 2, 3]) ⟨rfl, rfl, rfl, rfl, rfl, rfl, rfl⟩ (by decide)⟩

/-! ### The builtin `Chunk.new` -/

/-- C11. `Chunk.new` is decided by `RecordLike(underlying).isRecord`: when
that call does not proceed, `New` returns its result and leaves `result` as it
was; when it proceeds with true, `New` assigns the chunk built from
`underlying` to `result` and returns proceed; when it proceeds with false,
`New` returns the type error for the expected type `Record` on `underlying`,
which is a raise, and leaves `result` as it was. So `New` returns proceed
exactly when `isRecord` proceeded with true. -/
theorem chunk_new_result {V N S : Type} (B : Builtins V N S) (underlying result : V) (s : S) :
    ((B.isRecord underlying s false).1 ≠ OpResult.proceed →
      ModChunk.New B underlying result s =
        ((B.isRecord underlying s false).1, result, (B.isRecord underlying s false).2.2)) ∧
    ((B.isRecord underlying s false).1 = OpResult.proceed →
      (B.isRecord underlying s false).2.1 = true →
      ModChunk.New B underlying result s =
        (OpResult.proceed, (B.build underlying (B.isRecord underlying s false).2.2).1,
          (B.build underlying (B.isRecord underlying s false).2.2).2)) ∧
    ((B.isRecord underlying s false).1 = OpResult.proceed →
      (B.isRecord underlying s false).2.1 = false →
      ModChunk.New B underlying result s =
        ((raiseTypeError B "Record" underlying (B.isRecord underlying s false).2.2).1, result,
          (raiseTypeError B "Record" underlying (B.isRecord underlying s false).2.2).2) ∧
      ∃ node, (ModChunk.New B underlying result s).1 = OpResult.raise node) ∧
    ((ModChunk.New B underlying result s).1 = OpResult.proceed ↔
      (B.isRecord underlying s false).1 = OpResult.proceed ∧
        (B.isRecord underlying s false).2.1 = true) := by
  unfold ModChunk.New
  simp only
  cases hc : (B.isRecord underlying s false).1 with
  | proceed =>
    by_cases hb : (B.isRecord underlying s false).2.1 = true
    · simp [checkOpResult, hb]
    · have hb2 : (B.isRecord underlying s false).2.1 = false := by simpa using hb
      simp [checkOpResult, hb2, raiseTypeError]
  | waitFor n => simp [checkOpResult]
  | raise n => simp [checkOpResult]

/-- Witness for C11: `Chunk.new` on a record, on a number and on an unbound
variable, the `Out` parameter holding the number 0 on entry. -/
theorem chunk_new_result_witness :
    ModChunk.New Val.builtins (Val.record 3) (Val.number 0) 0 =
      (OpResult.proceed, Val.chunk (Val.record 3), 1) ∧
    ModChunk.New Val.builtins (Val.number 7) (Val.number 0) 0 =
      (OpResult.raise (Val.typeError "Record" (Val.number 7)), Val.number 0, 1) ∧
    ModChunk.New Val.builtins (Val.unbound 2) (Val.number 0) 0 =
      (OpResult.waitFor (Val.unbound 2), Val.number 0, 0) ∧
    ((ModChunk.New Val.builtins (Val.unbound 2) (Val.number 0) 0).1 = OpResult.proceed ↔
      (Val.builtins.isRecord (Val.unbound 2) 0 false).1 = OpResult.proceed ∧
        (Val.builtins.isRecord (Val.unbound 2) 0 false).2.1 = true) :=
  ⟨rfl, rfl, rfl,
    (chunk_new_result Val.builtins (Val.unbound 2) (Val.number 0) 0).2.2.2⟩

/-! ### The value returned when no thread is found -/

theorem drainAlarms_front {X : Type} (E : Env X) (now : Int) :
    ∀ (fuel : Nat) (s s2 : VM X) (tr : List Event),
      drainAlarms E now fuel s = Except.ok (s2, tr) →
        ∀ a rest, s2.alarms = a :: rest → now < a.expiration := by
  intro fuel
  induction fuel with
  | zero => intro s s2 tr h; simp [drainAlarms] at h
  | succ n ih =>
    intro s s2 tr h
    unfold drainAlarms at h
    split at h
    · rename_i hal
      simp only [Except.ok.injEq, Prod.mk.injEq] at h
      obtain ⟨rfl, -⟩ := h
      intro a rest ha
      rw [hal] at ha
      cases ha
    · rename_i a0 rest0 hal
      split at h
      · simp only at h
        split at h
        · cases h
        · split at h
          · cases h
          · split at h
            · cases h
            · rename_i s3 tr3 hrec
              simp only [Except.ok.injEq, Prod.mk.injEq] at h
              obtain ⟨rfl, -⟩ := h
              exact ih _ _ _ hrec
      · rename_i hd
        simp only [Except.ok.injEq, Prod.mk.injEq] at h
        obtain ⟨rfl, -⟩ := h
        intro a rest ha
        rw [hal] at ha
        simp only [List.cons.injEq] at ha
        obtain ⟨rfl, -⟩ := ha
        omega

theorem drainAlarms_clock {X : Type} (E : Env X)
    (hi : ∀ s, (E.install E.topLevelSpace s).2.referenceTime = s.referenceTime)
    (hw : ∀ n s, (E.wakeUp n s).referenceTime ≤ s.referenceTime) (now : Int) :
    ∀ (fuel : Nat) (s s2 : VM X) (tr : List Event),
      drainAlarms E now fuel s = Except.ok (s2, tr) → s2.referenceTime ≤ s.referenceTime := by
  intro fuel
  induction fuel with
  | zero => intro s s2 tr h; simp [drainAlarms] at h
  | succ n ih =>
    intro s s2 tr h
    unfold drainAlarms at h
    split at h
    · simp only [Except.ok.injEq, Prod.mk.injEq] at h
      rw [← h.1]
    · split at h
      · simp only at h
        split at h
        · cases h
        · rename_i a1 r1 h1
          split at h
          · cases h
          · split at h
            · cases h
            · rename_i s3 tr3 hrec
              simp only [Except.ok.injEq, Prod.mk.injEq] at h
              rw [← h.1]
              have h2 := ih _ _ _ hrec
              simp only at h2
              have h3 := hw a1.wakeable (E.install E.topLevelSpace s).2
              rw [hi] at h3
              exact le_trans h2 h3
      · simp only [Except.ok.injEq, Prod.mk.injEq] at h
        rw [← h.1]

theorem selectThread_clock {X : Type} (E : Env X) (hfr : ClockFrame E) :
    ∀ (fuel : Nat) (s s2 : VM X) (c : Option Thread) (tr : List Event),
      selectThread E fuel s = Except.ok (c, s2, tr) →
        s2.alarms = s.alarms ∧ s2.referenceTime = s.referenceTime := by
  intro fuel
  induction fuel with
  | zero => intro s s2 c tr h; simp [selectThread] at h
  | succ n ih =>
    intro s s2 c tr h
    unfold selectThread at h
    split at h
    · simp only [Except.ok.injEq, Prod.mk.injEq] at h
      rw [← h.2.1]
      exact ⟨hfr.popNext_alarms s, hfr.popNext_referenceTime s⟩
    · simp only at h
      split at h
      · split at h
        · cases h
        · rename_i c2 s3 tr3 hrec
          simp only [Except.ok.injEq, Prod.mk.injEq] at h
          rw [← h.2.1]
          obtain ⟨e1, e2⟩ := ih _ _ _ _ hrec
          exact ⟨by rw [e1, hfr.isTerminated_alarms, hfr.popNext_alarms],
            by rw [e2, hfr.isTerminated_referenceTime, hfr.popNext_referenceTime]⟩
      · simp only [Except.ok.injEq, Prod.mk.injEq] at h
        rw [← h.2.1]
        exact ⟨by rw [hfr.isTerminated_alarms, hfr.popNext_alarms],
          by rw [hfr.isTerminated_referenceTime, hfr.popNext_referenceTime]⟩

theorem runLoop_of_leave {X : Type} (E : Env X) (f m : Nat) (s s3 sL : VM X)
    (trB tr : List Event)
    (hC : (loopCondition E s).1 = true)
    (hB : loopBody E f (loopCondition E s).2.1 = Except.ok (Control.leave, s3, trB))
    (hL : runLoop E m s = Except.ok (sL, tr)) : sL = s3 := by
  have hP : loopPass E f s = Except.ok (false, s3, (loopCondition E s).2.2 ++ trB) := by
    unfold loopPass
    simp only [hC, if_true, hB]
  have hmono := loopPass_mono E f (max f m) s _ hP (le_max_left f m)
  cases m with
  | zero => simp [runLoop] at hL
  | succ k =>
    unfold runLoop at hL
    split at hL
    · cases hL
    · rename_i s1 tr1 hp1
      have := loopPass_mono E k (max f (k + 1)) s _ hp1
        (le_trans (Nat.le_succ k) (le_max_right f (k + 1)))
      rw [hmono] at this
      simp only [Except.ok.injEq, Prod.mk.injEq, true_and] at this
      simp only [Except.ok.injEq, Prod.mk.injEq] at hL
      rw [← hL.1, this.1]
    · rename_i s1 tr1 hp1
      have := loopPass_mono E k (max f (k + 1)) s _ hp1
        (le_trans (Nat.le_succ k) (le_max_right f (k + 1)))
      rw [hmono] at this
      simp at this

theorem worldEnv_clockFrame (prog : Thread → Quantum) (spaceOf : Thread → Space) :
    ClockFrame (World.env prog spaceOf) where
  popNext_alarms := by
    intro s
    simp only [World.env]
    split <;> rfl
  popNext_referenceTime := by
    intro s
    simp only [World.env]
    split <;> rfl
  isTerminated_alarms := by intro t s; rfl
  isTerminated_referenceTime := by intro t s; rfl
  install_alarms := by
    intro s
    simp only [World.env]
    split <;> rfl
  install_referenceTime := by
    intro s
    simp only [World.env]
    split <;> rfl

theorem tickingEnv_clockFrame : ClockFrame tickingEnv where
  popNext_alarms := (worldEnv_clockFrame (fun _ => Quantum.stay) (fun _ => 1)).popNext_alarms
  popNext_referenceTime :=
    (worldEnv_clockFrame (fun _ => Quantum.stay) (fun _ => 1)).popNext_referenceTime
  isTerminated_alarms :=
    (worldEnv_clockFrame (fun _ => Quantum.stay) (fun _ => 1)).isTerminated_alarms
  isTerminated_referenceTime :=
    (worldEnv_clockFrame (fun _ => Quantum.stay) (fun _ => 1)).isTerminated_referenceTime
  install_alarms := (worldEnv_clockFrame (fun _ => Quantum.stay) (fun _ => 1)).install_alarms
  install_referenceTime :=
    (worldEnv_clockFrame (fun _ => Quantum.stay) (fun _ => 1)).install_referenceTime

/-- Counterexample to C12: pops, `isTerminated()` and the install of the
top-level space leave the clock and the alarm queue alone, and the loop is
left because no thread is found; but the wake-up of the alarm due at 5 moves
the clock from 5 to 10, the alarm expiring at 7 is compared with the value 5
read at line 43 and stays in the queue, and `run()` returns
`max (7 - 10) 0 = 0`. -/
theorem idle_exit_returns_zero :
    ClockFrame tickingEnv ∧
    (loopCondition tickingEnv tickingMachine).1 = true ∧
    (∃ s3, loopBody tickingEnv 3 (loopCondition tickingEnv tickingMachine).2.1 =
      Except.ok (Control.leave, s3,
        [Event.isGCRequired false,
         Event.install 0 true, Event.wakeUp ⟨5, 10⟩, Event.removeFront ⟨5, 10⟩,
         Event.popNext none])) ∧
    ∃ sF, run tickingEnv 4 tickingMachine =
        Except.ok (0, sF,
          [Event.isGCRequired false,
           Event.install 0 true, Event.wakeUp ⟨5, 10⟩, Event.removeFront ⟨5, 10⟩,
           Event.popNext none,
           Event.install 0 true]) ∧
      sF.alarms = [⟨7, 11⟩] ∧ sF.referenceTime = 10 :=
  ⟨tickingEnv_clockFrame, rfl, ⟨_, rfl⟩, _, rfl, rfl, rfl⟩

/-- C12, amended. When `run()` leaves its loop because the selection found no
thread, the pops, `isTerminated()` and the install of the top-level space
leaving the reference time and the alarm queue alone, and no wake-up moving
the reference time forward, the value returned is `-1` or strictly positive,
never `0`: an alarm still at the front of the queue expires after the
reference time (the subtraction staying within `std::int64_t`). -/
theorem idle_exit_never_zero {X : Type} (E : Env X) (hfr : ClockFrame E)
    (hw : ∀ n s, (E.wakeUp n s).referenceTime ≤ s.referenceTime)
    (f n m : Nat) (s0 s s3 sF : VM X) (trs : List (List Event)) (trB tr : List Event)
    (r : Int)
    (hreach : passes E f n s0 = Except.ok (true, s, trs))
    (hC : (loopCondition E s).1 = true)
    (hB : loopBody E f (loopCondition E s).2.1 = Except.ok (Control.leave, s3, trB))
    (hrun : run E m s0 = Except.ok (r, sF, tr))
    (hov : ∀ a rest, sF.alarms = a :: rest →
      a.expiration - sF.referenceTime < 9223372036854775808) :
    r ≠ 0 ∧
    ((sF.alarms = [] ∧ r = -1) ∨
      (∃ a rest, sF.alarms = a :: rest ∧ sF.referenceTime < a.expiration ∧
        r = a.expiration - sF.referenceTime ∧ 0 < r)) := by
  obtain ⟨s1, tr1, hl, hsF, hr, -⟩ := run_eq_ok hrun
  obtain ⟨tr2, hl2, -⟩ := runLoop_of_passes E f n s0 s s1 trs m tr1 hreach hl
  have hs1 : s1 = s3 := runLoop_of_leave E f m s s3 s1 trB tr2 hC hB hl2
  subst hs1
  obtain ⟨s2, trA, s3b, trS, sel, hA, hS, hcase⟩ := loopBody_ok E f _ s1 _ trB hB
  have hs3 : s3b = s1 := by
    rcases hcase with ⟨-, -, h, -⟩ | ⟨t, tr4, -, hR, -⟩
    · exact h.symm
    · have := (runThread_ok E t s3b s1 _ tr4 hR).1
      cases this
  subst hs3
  have hfront := drainAlarms_front E _ _ _ _ _ hA
  have hclock := drainAlarms_clock E hfr.install_referenceTime hw _ _ _ _ _ hA
  obtain ⟨e1, e2⟩ := selectThread_clock E hfr f s2 s3b sel trS hS
  have hFa : sF.alarms = s2.alarms := by rw [hsF, hfr.install_alarms, e1]
  have hFr : sF.referenceTime = s2.referenceTime := by
    rw [hsF, hfr.install_referenceTime, e2]
  have key : (sF.alarms = [] ∧ r = -1) ∨
      (∃ a rest, sF.alarms = a :: rest ∧ sF.referenceTime < a.expiration ∧
        r = a.expiration - sF.referenceTime ∧ 0 < r) := by
    cases hal : sF.alarms with
    | nil =>
      left
      refine ⟨rfl, ?_⟩
      rw [hr]; unfold nextWake; rw [hal]
    | cons a rest =>
      right
      have hlt : sF.referenceTime < a.expiration := by
        have h1 := hfront a rest (by rw [← hFa, hal])
        rw [hFr]
        exact lt_of_le_of_lt hclock h1
      have hb := hov a rest hal
      have hv : r = a.expiration - sF.referenceTime := by
        rw [hr]; unfold nextWake; rw [hal]
        simp only
        rw [wrapInt64_of_inRange _ (by omega) hb]
        exact max_eq_left (by omega)
      exact ⟨a, rest, rfl, hlt, hv, by omega⟩
  refine ⟨?_, key⟩
  rcases key with ⟨-, h⟩ | ⟨a, rest, -, -, -, h⟩ <;> omega

/-- Witness for C12, amended: an empty pool and an alarm expiring at 5 with the
clock at 3; the loop is left at once and `run()` returns 2. -/
theorem idle_exit_never_zero_witness :
    (∃ sF, run plainEnv 2 waitingMachine =
      Except.ok (2, sF,
        [Event.isGCRequired false, Event.popNext none, Event.install 0 true])) ∧
    ((2 : Int) ≠ 0 ∧
    (((plainEnv.install 0 waitingMachine).2.alarms = [] ∧ (2 : Int) = -1) ∨
      (∃ a rest, (plainEnv.install 0 waitingMachine).2.alarms = a :: rest ∧
        (plainEnv.install 0 waitingMachine).2.referenceTime < a.expiration ∧
        (2 : Int) = a.expiration - (plainEnv.install 0 waitingMachine).2.referenceTime ∧
        0 < (2 : Int)))) :=
  ⟨⟨_, rfl⟩,
    idle_exit_never_zero plainEnv (worldEnv_clockFrame (fun _ => Quantum.stay) (fun _ => 1))
      (fun _ _ => le_refl _) 1 0 2 waitingMachine waitingMachine waitingMachine
      (plainEnv.install 0 waitingMachine).2 []
      [Event.isGCRequired false, Event.popNext none]
      [Event.isGCRequired false, Event.popNext none, Event.install 0 true] 2
      rfl rfl rfl rfl
      (by
        intro a rest h
        have h2 : [(⟨5, 7⟩ : Alarm)] = a :: rest := h
        simp only [List.cons.injEq] at h2
        obtain ⟨rfl, -⟩ := h2
        decide)⟩

end Mozart
